import Mathlib

/-!
# influxql/internal: the `Point` and `Aux` wire records

A shallow embedding of `influxql/internal/internal.pb.go`: the two generated
record types, their struct-tag field tables, `Reset`, and the nil-safe getters;
and a model, written from the specification, of the codec that the file leaves to
the protocol-buffer runtime it imports.

Conventions of the embedding.

* A Go pointer `*T` is `Ptr T = Option T`, `nil` being `none`.  Reading through a
  pointer is the fallible operation `deref`; a getter is a computation in
  `Except Fault`, so that "the getter cannot dereference nil" is a theorem and not
  an artefact of the encoding.
* Go's `string` is a sequence of bytes, `List Byte`; a `[]byte` or `[]*Aux` slice is a
  list (a nil slice and an empty slice are both `[]`).
* `int64`, `int32`, `uint32` are integers carrying their range; `float64` is its
  IEEE-754 bit pattern, a natural number below `2^64` (the code only ever moves
  floats around, it never computes with them).
-/

namespace Internal

/-! ## Go base types -/

/-- One octet. -/
abbrev Byte := Fin 256

/-- A Go `string`: an immutable sequence of bytes, with no text encoding enforced. -/
abbrev GoString := List Byte

/-- A Go `int64`. -/
abbrev Int64 := { v : Int // -9223372036854775808 ≤ v ∧ v < 9223372036854775808 }

/-- A Go `int32`. -/
abbrev Int32 := { v : Int // -2147483648 ≤ v ∧ v < 2147483648 }

/-- A Go `uint32`. -/
abbrev Uint32 := { v : Nat // v < 4294967296 }

/-- A Go `float64`, as its 64-bit IEEE-754 pattern. -/
abbrev Float64 := { bits : Nat // bits < 18446744073709551616 }

/-- A Go pointer: `none` is `nil`. -/
abbrev Ptr (α : Type) := Option α

/-- The zero value of `int64`. -/
def Int64.zero : Int64 := ⟨0, by decide⟩

/-- The zero value of `int32`. -/
def Int32.zero : Int32 := ⟨0, by decide⟩

/-- The zero value of `uint32`. -/
def Uint32.zero : Uint32 := ⟨0, by decide⟩

/-- The zero value of `float64`: `+0.0`, all bits clear. -/
def Float64.zero : Float64 := ⟨0, by decide⟩

/-- The run-time failure a Go program meets when it reads through a nil pointer. -/
inductive Fault where
  | nilDereference
deriving DecidableEq, Repr

/-- The expression `*p`. -/
def deref {α : Type} : Ptr α → Except Fault α
  | some a => .ok a
  | none => .error .nilDereference

/-! ## The records -/

/-- The struct `Aux` (internal.pb.go, lines 114-121). -/
structure Aux where
  DataType : Ptr Int32 := none
  FloatValue : Ptr Float64 := none
  IntegerValue : Ptr Int64 := none
  StringValue : Ptr GoString := none
  BooleanValue : Ptr Bool := none
  XXX_unrecognized : List Byte := []
deriving DecidableEq, Repr

/-- The struct `Point` (internal.pb.go, lines 26-38). `Aux` is `[]*Aux`. -/
structure Point where
  Name : Ptr GoString := none
  Tags : Ptr GoString := none
  Time : Ptr Int64 := none
  Nil : Ptr Bool := none
  Aux : List (Ptr Aux) := []
  Aggregated : Ptr Uint32 := none
  FloatValue : Ptr Float64 := none
  IntegerValue : Ptr Int64 := none
  StringValue : Ptr GoString := none
  BooleanValue : Ptr Bool := none
  XXX_unrecognized : List Byte := []
deriving DecidableEq, Repr

/-! ## Struct tags -/

/-- The wire kind named first in a `protobuf:"..."` struct tag. -/
inductive WireKind where
  | varint
  | fixed64
  | bytes
deriving DecidableEq, Repr

/-- The cardinality named third in a struct tag: `req`, `opt` or `rep`. -/
inductive Label where
  | req
  | opt
  | rep
deriving DecidableEq, Repr

/-- The Go type of the value a field holds (behind the pointer or slice). -/
inductive GoType where
  | string
  | int64
  | int32
  | uint32
  | float64
  | bool
  | message
deriving DecidableEq, Repr

/-- One `protobuf:"kind,number,label,name=..."` struct tag together with the
    field's Go type. -/
structure FieldDesc where
  name : String
  wire : WireKind
  tag : Nat
  label : Label
  goType : GoType
deriving DecidableEq, Repr

/-- Tag of `Point.Name`. -/
def Point.fName : FieldDesc := ⟨"Name", .bytes, 1, .req, .string⟩
/-- Tag of `Point.Tags`. -/
def Point.fTags : FieldDesc := ⟨"Tags", .bytes, 2, .req, .string⟩
/-- Tag of `Point.Time`. -/
def Point.fTime : FieldDesc := ⟨"Time", .varint, 3, .req, .int64⟩
/-- Tag of `Point.Nil`. -/
def Point.fNil : FieldDesc := ⟨"Nil", .varint, 4, .req, .bool⟩
/-- Tag of `Point.Aux`. -/
def Point.fAux : FieldDesc := ⟨"Aux", .bytes, 5, .rep, .message⟩
/-- Tag of `Point.Aggregated`. -/
def Point.fAggregated : FieldDesc := ⟨"Aggregated", .varint, 6, .opt, .uint32⟩
/-- Tag of `Point.FloatValue`. -/
def Point.fFloatValue : FieldDesc := ⟨"FloatValue", .fixed64, 7, .opt, .float64⟩
/-- Tag of `Point.IntegerValue`. -/
def Point.fIntegerValue : FieldDesc := ⟨"IntegerValue", .varint, 8, .opt, .int64⟩
/-- Tag of `Point.StringValue`. -/
def Point.fStringValue : FieldDesc := ⟨"StringValue", .bytes, 9, .opt, .string⟩
/-- Tag of `Point.BooleanValue`. -/
def Point.fBooleanValue : FieldDesc := ⟨"BooleanValue", .varint, 10, .opt, .bool⟩

/-- The tagged fields of `Point`, in declaration order (`XXX_unrecognized` has no
    `protobuf` tag and is not a wire field). -/
def Point.fields : List FieldDesc :=
  [Point.fName, Point.fTags, Point.fTime, Point.fNil, Point.fAux, Point.fAggregated,
   Point.fFloatValue, Point.fIntegerValue, Point.fStringValue, Point.fBooleanValue]

/-- Tag of `Aux.DataType`. -/
def Aux.fDataType : FieldDesc := ⟨"DataType", .varint, 1, .req, .int32⟩
/-- Tag of `Aux.FloatValue`. -/
def Aux.fFloatValue : FieldDesc := ⟨"FloatValue", .fixed64, 2, .opt, .float64⟩
/-- Tag of `Aux.IntegerValue`. -/
def Aux.fIntegerValue : FieldDesc := ⟨"IntegerValue", .varint, 3, .opt, .int64⟩
/-- Tag of `Aux.StringValue`. -/
def Aux.fStringValue : FieldDesc := ⟨"StringValue", .bytes, 4, .opt, .string⟩
/-- Tag of `Aux.BooleanValue`. -/
def Aux.fBooleanValue : FieldDesc := ⟨"BooleanValue", .varint, 5, .opt, .bool⟩

/-- The tagged fields of `Aux`, in declaration order. -/
def Aux.fields : List FieldDesc :=
  [Aux.fDataType, Aux.fFloatValue, Aux.fIntegerValue, Aux.fStringValue, Aux.fBooleanValue]

/-- The names of the fields a table marks `req`. -/
def requiredNames (fs : List FieldDesc) : List String :=
  (fs.filter (fun f => f.label = .req)).map (fun f => f.name)

/-! ## Reset and the getters -/

/-- `func (m *Point) Reset() { *m = Point{} }`: the store through `m` faults on a
    nil receiver, otherwise the pointee becomes the zero struct. -/
def Point.Reset (m : Ptr Point) : Except Fault (Ptr Point) :=
  match m with
  | none => .error .nilDereference
  | some _ => .ok (some {})

/-- `func (m *Aux) Reset() { *m = Aux{} }`. -/
def Aux.Reset (m : Ptr Aux) : Except Fault (Ptr Aux) :=
  match m with
  | none => .error .nilDereference
  | some _ => .ok (some {})

/-- The body shared by every scalar getter,
    `if m != nil && m.F != nil { return *m.F }; return zero`.
    The right operand of `&&` reads `m.F`, hence dereferences `m`, and is evaluated
    only when the left operand is true. -/
def getScalar {R α : Type} (m : Ptr R) (field : R → Ptr α) (zero : α) : Except Fault α := do
  let present ←
    if m.isSome then do
      let r ← deref m
      pure (field r).isSome
    else
      pure false
  if present then do
    let r ← deref m
    deref (field r)
  else
    pure zero

/-- `func (m *Point) GetName() string`. -/
def Point.GetName (m : Ptr Point) : Except Fault GoString :=
  getScalar m (fun r => r.Name) []

/-- `func (m *Point) GetTags() string`. -/
def Point.GetTags (m : Ptr Point) : Except Fault GoString :=
  getScalar m (fun r => r.Tags) []

/-- `func (m *Point) GetTime() int64`. -/
def Point.GetTime (m : Ptr Point) : Except Fault Int64 :=
  getScalar m (fun r => r.Time) Int64.zero

/-- `func (m *Point) GetNil() bool`. -/
def Point.GetNil (m : Ptr Point) : Except Fault Bool :=
  getScalar m (fun r => r.Nil) false

/-- `func (m *Point) GetAux() []*Aux`: `if m != nil { return m.Aux }; return nil`. -/
def Point.GetAux (m : Ptr Point) : Except Fault (List (Ptr Internal.Aux)) := do
  if m.isSome then do
    let r ← deref m
    pure r.Aux
  else
    pure []

/-- `func (m *Point) GetAggregated() uint32`. -/
def Point.GetAggregated (m : Ptr Point) : Except Fault Uint32 :=
  getScalar m (fun r => r.Aggregated) Uint32.zero

/-- `func (m *Point) GetFloatValue() float64`. -/
def Point.GetFloatValue (m : Ptr Point) : Except Fault Float64 :=
  getScalar m (fun r => r.FloatValue) Float64.zero

/-- `func (m *Point) GetIntegerValue() int64`. -/
def Point.GetIntegerValue (m : Ptr Point) : Except Fault Int64 :=
  getScalar m (fun r => r.IntegerValue) Int64.zero

/-- `func (m *Point) GetStringValue() string`. -/
def Point.GetStringValue (m : Ptr Point) : Except Fault GoString :=
  getScalar m (fun r => r.StringValue) []

/-- `func (m *Point) GetBooleanValue() bool`. -/
def Point.GetBooleanValue (m : Ptr Point) : Except Fault Bool :=
  getScalar m (fun r => r.BooleanValue) false

/-- `func (m *Aux) GetDataType() int32`. -/
def Aux.GetDataType (m : Ptr Aux) : Except Fault Int32 :=
  getScalar m (fun r => r.DataType) Int32.zero

/-- `func (m *Aux) GetFloatValue() float64`. -/
def Aux.GetFloatValue (m : Ptr Aux) : Except Fault Float64 :=
  getScalar m (fun r => r.FloatValue) Float64.zero

/-- `func (m *Aux) GetIntegerValue() int64`. -/
def Aux.GetIntegerValue (m : Ptr Aux) : Except Fault Int64 :=
  getScalar m (fun r => r.IntegerValue) Int64.zero

/-- `func (m *Aux) GetStringValue() string`. -/
def Aux.GetStringValue (m : Ptr Aux) : Except Fault GoString :=
  getScalar m (fun r => r.StringValue) []

/-- `func (m *Aux) GetBooleanValue() bool`. -/
def Aux.GetBooleanValue (m : Ptr Aux) : Except Fault Bool :=
  getScalar m (fun r => r.BooleanValue) false

/-- What the accessor contract asks of one getter result `got` for a field `field`
    whose type has zero value `zero`: the stored value when the field is present,
    the zero value when it is absent. -/
def ReadsField {α : Type} (field : Ptr α) (zero : α) (got : Except Fault α) : Prop :=
  (∀ v, field = some v → got = .ok v) ∧ (field = none → got = .ok zero)

/-- The points of scenario A: `Point{Name="cpu", Tags="", Time=0, Nil=true}`. -/
def scenarioA : Point :=
  { Name := some [99, 112, 117], Tags := some [], Time := some Int64.zero, Nil := some true }

/-! ## The codec

`internal.pb.go` holds the schema only: the bytes are produced and read by the
protocol-buffer runtime the file imports, driven by the struct tags above.  The
definitions of this section model that codec from the specification (section 4.1,
section 7 and the standard tag-based wire format section 6 refers to). -/

/-- Modelled from the spec: the two error kinds of section 7, reported by the codec
    that is not part of `internal.pb.go`. -/
inductive CodecError where
  | MissingRequiredField (field : String)
  | MalformedInput
deriving DecidableEq, Repr

/-- Modelled from the spec: the low eight bits of a number, the byte the missing
    encoder writes for it. -/
def byteOf (n : Nat) : Byte := ⟨n % 256, Nat.mod_lt _ (by decide)⟩

/-- Modelled from the spec: base-128 varint output of the missing codec, low group
    first, the high bit of a byte set when another byte follows.  `k` bounds the number
    of continuation bytes. -/
def putVarintFuel : Nat → Nat → List Byte
  | 0, n => [byteOf (n % 128)]
  | k + 1, n =>
    if n < 128 then [byteOf n] else byteOf (n % 128 + 128) :: putVarintFuel k (n / 128)

/-- Modelled from the spec: the varint of an unsigned 64-bit value, at most ten bytes
    (the codec is missing from the source). -/
def putVarint (n : Nat) : List Byte := putVarintFuel 9 (n % 18446744073709551616)

/-- Modelled from the spec: varint input of the missing codec.  Reads at most `k`
    bytes; `none` is a truncated varint or one that does not end within `k` bytes. -/
def getVarintFuel : Nat → List Byte → Option (Nat × List Byte)
  | 0, _ => none
  | _ + 1, [] => none
  | k + 1, b :: bs =>
    if b.val < 128 then some (b.val, bs)
    else
      match getVarintFuel k bs with
      | none => none
      | some (v, rest) => some (b.val - 128 + 128 * v, rest)

/-- Modelled from the spec: a varint of the missing codec read into an unsigned 64-bit
    value (bits above the 64th are dropped), with the bytes that follow it. -/
def getVarint (bs : List Byte) : Option (Nat × List Byte) :=
  match getVarintFuel 10 bs with
  | none => none
  | some (v, rest) => some (v % 18446744073709551616, rest)

/-- Modelled from the spec: "fixed 8-byte little-endian", output side of the missing
    codec. -/
def putFixed64 (n : Nat) : List Byte :=
  [byteOf n, byteOf (n / 256), byteOf (n / 65536), byteOf (n / 16777216),
   byteOf (n / 4294967296), byteOf (n / 1099511627776), byteOf (n / 281474976710656),
   byteOf (n / 72057594037927936)]

/-- Modelled from the spec: "fixed 8-byte little-endian", input side of the missing
    codec. -/
def getFixed64 : List Byte → Option (Nat × List Byte)
  | b0 :: b1 :: b2 :: b3 :: b4 :: b5 :: b6 :: b7 :: rest =>
    some (b0.val + 256 * b1.val + 65536 * b2.val + 16777216 * b3.val
      + 4294967296 * b4.val + 1099511627776 * b5.val + 281474976710656 * b6.val
      + 72057594037927936 * b7.val, rest)
  | _ => none

/-- Modelled from the spec: a four-byte little-endian value of the standard wire
    format; no declared field uses it, it only occurs in unknown fields read by the
    missing codec. -/
def getFixed32 : List Byte → Option (Nat × List Byte)
  | b0 :: b1 :: b2 :: b3 :: rest =>
    some (b0.val + 256 * b1.val + 65536 * b2.val + 16777216 * b3.val, rest)
  | _ => none

/-- Modelled from the spec: the wire-type number the missing codec uses for a
    struct-tag wire kind, as in the standard format. -/
def WireKind.wireType : WireKind → Nat
  | .varint => 0
  | .fixed64 => 1
  | .bytes => 2

/-- Modelled from the spec: the payload of one field as the missing codec reads it
    off the wire, by wire type. -/
inductive Payload where
  | varint (v : Nat)
  | fixed64 (v : Nat)
  | bytes (b : List Byte)
  | fixed32 (v : Nat)
deriving DecidableEq, Repr

/-- Modelled from the spec: one "tag/wire pair" with its payload as read by the
    missing codec; `raw` is the stretch of input the field occupied, key included. -/
structure Field where
  tag : Nat
  payload : Payload
  raw : List Byte
deriving DecidableEq, Repr

/-- Modelled from the spec: the missing codec reading one key and the payload its wire
    type announces.  `none` is malformed input: a truncated varint, a length prefix
    exceeding the remaining bytes, a truncated fixed-width value, or a wire type other
    than varint (0), fixed 64-bit (1), length-delimited (2) and fixed 32-bit (5). -/
def readBody (bs : List Byte) : Option (Nat × Payload × List Byte) :=
  match getVarint bs with
  | none => none
  | some (key, r1) =>
    if key % 8 = 0 then
      match getVarint r1 with
      | none => none
      | some (v, r2) => some (key / 8, .varint v, r2)
    else if key % 8 = 1 then
      match getFixed64 r1 with
      | none => none
      | some (v, r2) => some (key / 8, .fixed64 v, r2)
    else if key % 8 = 2 then
      match getVarint r1 with
      | none => none
      | some (n, r2) =>
        if n ≤ r2.length then some (key / 8, .bytes (r2.take n), r2.drop n) else none
    else if key % 8 = 5 then
      match getFixed32 r1 with
      | none => none
      | some (v, r2) => some (key / 8, .fixed32 v, r2)
    else none

/-- Modelled from the spec: one field read by the missing codec, with the bytes it
    occupied and the bytes that follow it. -/
def readField (bs : List Byte) : Option (Field × List Byte) :=
  match readBody bs with
  | none => none
  | some (tag, payload, rest) =>
    some (⟨tag, payload, bs.take (bs.length - rest.length)⟩, rest)

/-- Modelled from the spec: the decoder of the missing codec, "read tag/wire pairs
    until input exhausted; dispatch by tag".  `apply` is the dispatch of one record
    type.  Every field takes at least one byte, so the fuel `decodeAll` gives never
    runs out. -/
def decodeLoop {M : Type} (apply : M → Field → Except CodecError M) :
    Nat → List Byte → M → Except CodecError M
  | _, [], acc => .ok acc
  | 0, _ :: _, _ => .error .MalformedInput
  | k + 1, b :: bs, acc =>
    match readField (b :: bs) with
    | none => .error .MalformedInput
    | some (f, rest) =>
      match apply acc f with
      | .error e => .error e
      | .ok acc1 => decodeLoop apply k rest acc1

/-- Modelled from the spec: the decoding loop of the missing codec over a whole
    payload. -/
def decodeAll {M : Type} (apply : M → Field → Except CodecError M) (bs : List Byte)
    (init : M) : Except CodecError M :=
  decodeLoop apply bs.length bs init

/-- Modelled from the spec: the reading loop of the missing decoder with no dispatch,
    giving the fields of a payload in wire order, `none` when the payload is malformed
    at the wire level.  It states what "a payload containing a field" means. -/
def scanLoop : Nat → List Byte → Option (List Field)
  | _, [] => some []
  | 0, _ :: _ => none
  | k + 1, b :: bs =>
    match readField (b :: bs) with
    | none => none
    | some (f, rest) =>
      match scanLoop k rest with
      | none => none
      | some fs => some (f :: fs)

/-- Modelled from the spec: the fields of a whole payload as the missing decoder
    separates them. -/
def wireFields (bs : List Byte) : Option (List Field) := scanLoop bs.length bs

/-- Modelled from the spec: an `int64` as the missing codec puts it in a varint, its
    two's-complement 64-bit pattern. -/
def Int64.toWire (x : Int64) : Nat := (x.val % 18446744073709551616).toNat

/-- Modelled from the spec: the `int64` the missing codec reads from a 64-bit
    pattern. -/
def Int64.ofWire (v : Nat) : Int64 :=
  if h : v % 18446744073709551616 < 9223372036854775808 then
    ⟨((v % 18446744073709551616 : Nat) : Int), by omega⟩
  else
    ⟨((v % 18446744073709551616 : Nat) : Int) - 18446744073709551616, by omega⟩

/-- Modelled from the spec: an `int32` as the missing codec puts it in a varint,
    sign-extended to 64 bits. -/
def Int32.toWire (x : Int32) : Nat := (x.val % 18446744073709551616).toNat

/-- Modelled from the spec: the `int32` the missing codec keeps of a varint, its low
    32 bits. -/
def Int32.ofWire (v : Nat) : Int32 :=
  if h : v % 4294967296 < 2147483648 then
    ⟨((v % 4294967296 : Nat) : Int), by omega⟩
  else
    ⟨((v % 4294967296 : Nat) : Int) - 4294967296, by omega⟩

/-- Modelled from the spec: the `uint32` the missing codec keeps of a varint, its low
    32 bits. -/
def Uint32.ofWire (v : Nat) : Uint32 := ⟨v % 4294967296, Nat.mod_lt _ (by decide)⟩

/-- Modelled from the spec: the `float64` the missing codec reads from eight bytes. -/
def Float64.ofWire (v : Nat) : Float64 := ⟨v % 18446744073709551616, Nat.mod_lt _ (by decide)⟩

/-- Modelled from the spec: "canonical encoders emit only 0 or 1" (the encoder is
    missing from the source). -/
def boolToWire (b : Bool) : Nat := if b then 1 else 0

/-- Modelled from the spec: "decoders accept any nonzero as true" (the decoder is
    missing from the source). -/
def boolOfWire (v : Nat) : Bool := decide (v ≠ 0)

/-- Modelled from the spec: the "tag+wire-type prefix" the missing encoder emits for a
    declared field. -/
def key (d : FieldDesc) : List Byte := putVarint (d.tag * 8 + d.wire.wireType)

/-- Modelled from the spec: a varint field as the missing encoder emits it. -/
def putVarintField (d : FieldDesc) (v : Nat) : List Byte := key d ++ putVarint v

/-- Modelled from the spec: a fixed 64-bit field as the missing encoder emits it. -/
def putFixed64Field (d : FieldDesc) (v : Nat) : List Byte := key d ++ putFixed64 v

/-- Modelled from the spec: a length-delimited field as the missing encoder emits it;
    the "length prefix is a varint byte count". -/
def putBytesField (d : FieldDesc) (b : List Byte) : List Byte :=
  key d ++ putVarint b.length ++ b

/-- Modelled from the spec: "for each present field, emit ..." of the missing encoder;
    an absent field emits nothing. -/
def optField {α : Type} (x : Ptr α) (enc : α → List Byte) : List Byte :=
  match x with
  | none => []
  | some v => enc v

/-- The dispatch `apply` run over an already separated list of fields, in order,
    stopping at the first error. -/
def applyAll {M : Type} (apply : M → Field → Except CodecError M) :
    M → List Field → Except CodecError M
  | acc, [] => .ok acc
  | acc, f :: fs =>
    match apply acc f with
    | .error e => .error e
    | .ok acc1 => applyAll apply acc1 fs

/-- The tag numbers a field table declares. -/
def declaredTags (table : List FieldDesc) : List Nat := table.map (fun d => d.tag)

/-- The bytes, in wire order, of those fields of a payload whose tag the table does
    not declare. -/
def unknownBytes (table : List FieldDesc) (fs : List Field) : List Byte :=
  ((fs.filter (fun f => decide (f.tag ∉ declaredTags table))).map (fun f => f.raw)).flatten

/-- The names of the required fields of a table that do not occur among the fields of
    a payload, in table order. -/
def absentRequired (table : List FieldDesc) (fs : List Field) : List String :=
  ((table.filter (fun d => decide (d.label = .req))).filter
    (fun d => decide (d.tag ∉ fs.map (fun f => f.tag)))).map (fun d => d.name)

/-- A byte string that reads as a sequence of well-formed fields none of which has a
    tag the table declares: what an unknown-field buffer filled by decoding holds. -/
def unknownOnly (table : List FieldDesc) (bs : List Byte) : Bool :=
  match wireFields bs with
  | none => false
  | some fs => fs.all (fun f => decide (f.tag ∉ declaredTags table))

/-! ### Aux on the wire -/

/-- Modelled from the spec: encode of an `Aux` by the missing codec, fields in
    ascending tag order, the unknown-field buffer re-emitted last; an absent
    `DataType` is the error. -/
def Aux.encode (a : Aux) : Except CodecError (List Byte) :=
  match a.DataType with
  | none => .error (.MissingRequiredField Aux.fDataType.name)
  | some dt =>
    .ok (putVarintField Aux.fDataType (Int32.toWire dt)
      ++ (optField a.FloatValue (fun v => putFixed64Field Aux.fFloatValue v.val)
      ++ (optField a.IntegerValue (fun v => putVarintField Aux.fIntegerValue (Int64.toWire v))
      ++ (optField a.StringValue (fun v => putBytesField Aux.fStringValue v)
      ++ (optField a.BooleanValue (fun v => putVarintField Aux.fBooleanValue (boolToWire v))
      ++ a.XXX_unrecognized)))))

/-- Modelled from the spec: the dispatch by tag of the missing decoder for `Aux`.  A
    declared tag with a payload of another wire type is malformed input; a field with an
    undeclared tag is appended verbatim to the unknown-field buffer. -/
def Aux.apply (a : Aux) (f : Field) : Except CodecError Aux :=
  if f.tag = Aux.fDataType.tag then
    match f.payload with
    | .varint v => .ok { a with DataType := some (Int32.ofWire v) }
    | _ => .error .MalformedInput
  else if f.tag = Aux.fFloatValue.tag then
    match f.payload with
    | .fixed64 v => .ok { a with FloatValue := some (Float64.ofWire v) }
    | _ => .error .MalformedInput
  else if f.tag = Aux.fIntegerValue.tag then
    match f.payload with
    | .varint v => .ok { a with IntegerValue := some (Int64.ofWire v) }
    | _ => .error .MalformedInput
  else if f.tag = Aux.fStringValue.tag then
    match f.payload with
    | .bytes b => .ok { a with StringValue := some b }
    | _ => .error .MalformedInput
  else if f.tag = Aux.fBooleanValue.tag then
    match f.payload with
    | .varint v => .ok { a with BooleanValue := some (boolOfWire v) }
    | _ => .error .MalformedInput
  else
    .ok { a with XXX_unrecognized := a.XXX_unrecognized ++ f.raw }

/-- Modelled from the spec: the check of the missing decoder once the input is
    exhausted, "missing required fields cause a decode error naming the field". -/
def Aux.checkRequired (a : Aux) : Except CodecError Aux :=
  match a.DataType with
  | none => .error (.MissingRequiredField Aux.fDataType.name)
  | some _ => .ok a

/-- Modelled from the spec: the field loop of the missing decoder run on an `Aux`
    payload, before the required-field check. -/
def Aux.decodeFields (bs : List Byte) : Except CodecError Aux :=
  decodeAll Aux.apply bs {}

/-- Modelled from the spec: decode of an `Aux` payload by the missing codec. -/
def Aux.decode (bs : List Byte) : Except CodecError Aux :=
  match Aux.decodeFields bs with
  | .error e => .error e
  | .ok a => Aux.checkRequired a

/-! ### Point on the wire -/

/-- Modelled from the spec: one element of the repeated `Aux` field as the missing
    encoder emits it, a length-delimited field holding the encoded element.  A nil
    element reads as the empty `Aux`, as it does through its getters, and so lacks
    `DataType`. -/
def encodeAuxElem (x : Ptr Aux) : Except CodecError (List Byte) :=
  match Aux.encode (x.getD {}) with
  | .error e => .error e
  | .ok body => .ok (putBytesField Point.fAux body)

/-- Modelled from the spec: the repeated `Aux` field as the missing encoder emits it,
    "order preserved". -/
def encodeAuxList : List (Ptr Aux) → Except CodecError (List Byte)
  | [] => .ok []
  | x :: xs =>
    match encodeAuxElem x with
    | .error e => .error e
    | .ok h =>
      match encodeAuxList xs with
      | .error e => .error e
      | .ok t => .ok (h ++ t)

/-- Modelled from the spec: encode of a `Point` by the missing codec, fields in
    ascending tag order, the unknown-field buffer re-emitted last; an absent required
    field is the error, the lowest tag first. -/
def Point.encode (p : Point) : Except CodecError (List Byte) :=
  match p.Name with
  | none => .error (.MissingRequiredField Point.fName.name)
  | some name =>
    match p.Tags with
    | none => .error (.MissingRequiredField Point.fTags.name)
    | some tags =>
      match p.Time with
      | none => .error (.MissingRequiredField Point.fTime.name)
      | some time =>
        match p.Nil with
        | none => .error (.MissingRequiredField Point.fNil.name)
        | some nil =>
          match encodeAuxList p.Aux with
          | .error e => .error e
          | .ok aux =>
            .ok (putBytesField Point.fName name
              ++ (putBytesField Point.fTags tags
              ++ (putVarintField Point.fTime (Int64.toWire time)
              ++ (putVarintField Point.fNil (boolToWire nil)
              ++ (aux
              ++ (optField p.Aggregated (fun v => putVarintField Point.fAggregated v.val)
              ++ (optField p.FloatValue (fun v => putFixed64Field Point.fFloatValue v.val)
              ++ (optField p.IntegerValue
                    (fun v => putVarintField Point.fIntegerValue (Int64.toWire v))
              ++ (optField p.StringValue (fun v => putBytesField Point.fStringValue v)
              ++ (optField p.BooleanValue
                    (fun v => putVarintField Point.fBooleanValue (boolToWire v))
              ++ p.XXX_unrecognized))))))))))

/-- Modelled from the spec: the dispatch by tag of the missing decoder for `Point`.
    An `Aux` field is decoded as an `Aux` payload and appended to the sequence. -/
def Point.apply (p : Point) (f : Field) : Except CodecError Point :=
  if f.tag = Point.fName.tag then
    match f.payload with
    | .bytes b => .ok { p with Name := some b }
    | _ => .error .MalformedInput
  else if f.tag = Point.fTags.tag then
    match f.payload with
    | .bytes b => .ok { p with Tags := some b }
    | _ => .error .MalformedInput
  else if f.tag = Point.fTime.tag then
    match f.payload with
    | .varint v => .ok { p with Time := some (Int64.ofWire v) }
    | _ => .error .MalformedInput
  else if f.tag = Point.fNil.tag then
    match f.payload with
    | .varint v => .ok { p with Nil := some (boolOfWire v) }
    | _ => .error .MalformedInput
  else if f.tag = Point.fAux.tag then
    match f.payload with
    | .bytes b =>
      match Internal.Aux.decode b with
      | .error e => .error e
      | .ok a => .ok { p with Aux := p.Aux ++ [some a] }
    | _ => .error .MalformedInput
  else if f.tag = Point.fAggregated.tag then
    match f.payload with
    | .varint v => .ok { p with Aggregated := some (Uint32.ofWire v) }
    | _ => .error .MalformedInput
  else if f.tag = Point.fFloatValue.tag then
    match f.payload with
    | .fixed64 v => .ok { p with FloatValue := some (Float64.ofWire v) }
    | _ => .error .MalformedInput
  else if f.tag = Point.fIntegerValue.tag then
    match f.payload with
    | .varint v => .ok { p with IntegerValue := some (Int64.ofWire v) }
    | _ => .error .MalformedInput
  else if f.tag = Point.fStringValue.tag then
    match f.payload with
    | .bytes b => .ok { p with StringValue := some b }
    | _ => .error .MalformedInput
  else if f.tag = Point.fBooleanValue.tag then
    match f.payload with
    | .varint v => .ok { p with BooleanValue := some (boolOfWire v) }
    | _ => .error .MalformedInput
  else
    .ok { p with XXX_unrecognized := p.XXX_unrecognized ++ f.raw }

/-- Modelled from the spec: the check of the missing decoder once the input is
    exhausted; the absent required field of lowest tag is the one named. -/
def Point.checkRequired (p : Point) : Except CodecError Point :=
  match p.Name with
  | none => .error (.MissingRequiredField Point.fName.name)
  | some _ =>
    match p.Tags with
    | none => .error (.MissingRequiredField Point.fTags.name)
    | some _ =>
      match p.Time with
      | none => .error (.MissingRequiredField Point.fTime.name)
      | some _ =>
        match p.Nil with
        | none => .error (.MissingRequiredField Point.fNil.name)
        | some _ => .ok p

/-- Modelled from the spec: the field loop of the missing decoder run on a `Point`
    payload, before the required-field check. -/
def Point.decodeFields (bs : List Byte) : Except CodecError Point :=
  decodeAll Point.apply bs {}

/-- Modelled from the spec: decode of a `Point` payload by the missing codec. -/
def Point.decode (bs : List Byte) : Except CodecError Point :=
  match Point.decodeFields bs with
  | .error e => .error e
  | .ok p => Point.checkRequired p

/-- A point with `Nil` true and all four value fields present (1.5, 7, "x", true). -/
def allValuesPoint : Point :=
  { Nil := some true,
    FloatValue := some ⟨4609434218613702656, by decide⟩,
    IntegerValue := some ⟨7, by decide⟩,
    StringValue := some [120],
    BooleanValue := some true }

/-- The payload of scenario A followed by one field the schema does not declare: tag
    15, varint, value 128. -/
def payloadUnknown : List Byte := [10, 3, 99, 112, 117, 18, 0, 24, 0, 32, 1, 120, 128, 1]

/-- What `payloadUnknown` decodes to. -/
def decodedUnknown : Point := { scenarioA with XXX_unrecognized := [120, 128, 1] }

/-- A `Point` payload that holds Name, Tags and Nil but no Time. -/
def payloadNoTime : List Byte := [10, 0, 18, 0, 32, 0]

/-- The field a declared varint field reads back as. -/
def varintFieldOf (d : FieldDesc) (v : Nat) : Field := ⟨d.tag, .varint v, putVarintField d v⟩

/-- The field a declared fixed 64-bit field reads back as. -/
def fixed64FieldOf (d : FieldDesc) (v : Nat) : Field :=
  ⟨d.tag, .fixed64 v, putFixed64Field d v⟩

/-- The field a declared length-delimited field reads back as. -/
def bytesFieldOf (d : FieldDesc) (b : List Byte) : Field := ⟨d.tag, .bytes b, putBytesField d b⟩

/-- The fields an optional field contributes: none when absent, one when present. -/
def optFields {α : Type} (x : Ptr α) (mk : α → Field) : List Field :=
  match x with
  | none => []
  | some v => [mk v]

/-- The encoded body of one element of the `Aux` sequence (empty when it does not
    encode). -/
def auxBody (x : Ptr Aux) : List Byte :=
  match Aux.encode (x.getD {}) with
  | .ok body => body
  | .error _ => []

/-- An `Aux` that encodes and whose parts fit the wire format: `DataType` is set, the
    string (if any) is shorter than `2^64` bytes, as every Go string is, and the
    unknown-field buffer holds only well-formed fields with undeclared tags. -/
def Aux.WellFormed (a : Aux) : Prop :=
  a.DataType.isSome = true
  ∧ (a.StringValue.getD []).length < 18446744073709551616
  ∧ unknownOnly Aux.fields a.XXX_unrecognized = true

instance Aux.decidableWellFormed (a : Aux) : Decidable a.WellFormed := by
  unfold Aux.WellFormed
  infer_instance

/-- A `Point` that encodes and whose parts fit the wire format: the four required
    fields are set, every element of `Aux` is a non-nil well-formed `Aux`, strings and
    encoded elements are shorter than `2^64` bytes (always so in Go), and the
    unknown-field buffer holds only well-formed fields with undeclared tags. -/
def Point.WellFormed (p : Point) : Prop :=
  p.Name.isSome = true ∧ p.Tags.isSome = true ∧ p.Time.isSome = true ∧ p.Nil.isSome = true
  ∧ (p.Name.getD []).length < 18446744073709551616
  ∧ (p.Tags.getD []).length < 18446744073709551616
  ∧ (p.StringValue.getD []).length < 18446744073709551616
  ∧ (∀ x ∈ p.Aux, x.isSome = true ∧ (x.getD {}).WellFormed
      ∧ (auxBody x).length < 18446744073709551616)
  ∧ unknownOnly Point.fields p.XXX_unrecognized = true

instance Point.decidableWellFormed (p : Point) : Decidable p.WellFormed := by
  unfold Point.WellFormed
  infer_instance

/-- A `Point` with every required field set whose unknown-field buffer holds the bytes
    of a declared field (`Aggregated = 5`). -/
def strayPoint : Point :=
  { Name := some [], Tags := some [], Time := some Int64.zero, Nil := some false,
    XXX_unrecognized := [48, 5] }

/-- What the encoding of `strayPoint` decodes to. -/
def strayDecoded : Point :=
  { Name := some [], Tags := some [], Time := some Int64.zero, Nil := some false,
    Aggregated := some ⟨5, by decide⟩ }

/-- Scenario B with a second element and unknown fields at both levels. -/
def scenarioB : Point :=
  { Name := some [99],
    Tags := some [1, 2],
    Time := some ⟨-5, by decide⟩,
    Nil := some false,
    Aux := [some { DataType := some ⟨1, by decide⟩, IntegerValue := some ⟨7, by decide⟩ },
            some { DataType := some ⟨-1, by decide⟩, StringValue := some [7, 8],
                   XXX_unrecognized := [120, 128, 1] }],
    Aggregated := some ⟨128, by decide⟩,
    FloatValue := some ⟨4609434218613702656, by decide⟩,
    XXX_unrecognized := [90, 2, 1, 2] }

/-! ## Getter lemmas -/

theorem getScalar_some {R α : Type} (r : R) (field : R → Ptr α) (zero : α) :
    getScalar (some r) field zero = .ok ((field r).getD zero) := by
  cases h : field r <;> simp [getScalar, deref, h, bind, Except.bind, pure, Except.pure]

theorem getScalar_nil {R α : Type} (field : R → Ptr α) (zero : α) :
    getScalar (none : Ptr R) field zero = .ok zero := by
  simp [getScalar, pure, Except.pure, bind, Except.bind]

theorem getScalar_reads {R α : Type} (r : R) (field : R → Ptr α) (zero : α) :
    ReadsField (field r) zero (getScalar (some r) field zero) := by
  rw [getScalar_some]
  constructor
  · intro v h
    rw [h]
    rfl
  · intro h
    rw [h]
    rfl

theorem getScalar_total {R α : Type} (m : Ptr R) (field : R → Ptr α) (zero : α) :
    ∃ v, getScalar m field zero = .ok v := by
  cases m with
  | none => exact ⟨zero, getScalar_nil field zero⟩
  | some r => exact ⟨_, getScalar_some r field zero⟩



/-! ## The field tables (C3, C4) -/

/-- C3. The `Point` struct declares exactly ten wire fields; their tag numbers are
    pairwise distinct and are exactly 1..10; name, number, wire kind, cardinality and
    Go type of each are those of the specification's table; the required fields are
    exactly Name, Tags, Time and Nil. -/
theorem Point_field_table :
    Point.fields.length = 10
    ∧ Point.fields.map (fun f => f.tag) = [1, 2, 3, 4, 5, 6, 7, 8, 9, 10]
    ∧ (Point.fields.map (fun f => f.tag)).Nodup
    ∧ Point.fields.map (fun f => (f.name, f.tag, f.wire, f.label, f.goType))
      = [("Name", 1, .bytes, .req, .string),
         ("Tags", 2, .bytes, .req, .string),
         ("Time", 3, .varint, .req, .int64),
         ("Nil", 4, .varint, .req, .bool),
         ("Aux", 5, .bytes, .rep, .message),
         ("Aggregated", 6, .varint, .opt, .uint32),
         ("FloatValue", 7, .fixed64, .opt, .float64),
         ("IntegerValue", 8, .varint, .opt, .int64),
         ("StringValue", 9, .bytes, .opt, .string),
         ("BooleanValue", 10, .varint, .opt, .bool)]
    ∧ requiredNames Point.fields = ["Name", "Tags", "Time", "Nil"] := by
  refine ⟨rfl, rfl, by decide, rfl, by decide⟩

/-- C4. The `Aux` struct declares exactly five wire fields; their tag numbers are
    pairwise distinct and are exactly 1..5; name, number, wire kind, cardinality and Go
    type of each are those of the specification's table; DataType is the only required
    field. -/
theorem Aux_field_table :
    Aux.fields.length = 5
    ∧ Aux.fields.map (fun f => f.tag) = [1, 2, 3, 4, 5]
    ∧ (Aux.fields.map (fun f => f.tag)).Nodup
    ∧ Aux.fields.map (fun f => (f.name, f.tag, f.wire, f.label, f.goType))
      = [("DataType", 1, .varint, .req, .int32),
         ("FloatValue", 2, .fixed64, .opt, .float64),
         ("IntegerValue", 3, .varint, .opt, .int64),
         ("StringValue", 4, .bytes, .opt, .string),
         ("BooleanValue", 5, .varint, .opt, .bool)]
    ∧ requiredNames Aux.fields = ["DataType"] := by
  refine ⟨rfl, rfl, by decide, rfl, by decide⟩

/-! ## The accessor contract (C1, C2, C8, C9) -/

/-- C1. For every `Point` and each of its scalar fields, the getter called on a
    pointer to the record returns the stored value when the field is present and the
    zero value of the type when it is absent; `GetAux` returns the stored sequence
    unchanged.  In particular `Aggregated = 128` reads as 128, an omitted `Aggregated`
    reads as 0, and the four value-field getters of scenario A return zero values. -/
theorem Point_getters_read_fields (p : Point) :
    ReadsField p.Name [] (Point.GetName (some p))
    ∧ ReadsField p.Tags [] (Point.GetTags (some p))
    ∧ ReadsField p.Time Int64.zero (Point.GetTime (some p))
    ∧ ReadsField p.Nil false (Point.GetNil (some p))
    ∧ ReadsField p.Aggregated Uint32.zero (Point.GetAggregated (some p))
    ∧ ReadsField p.FloatValue Float64.zero (Point.GetFloatValue (some p))
    ∧ ReadsField p.IntegerValue Int64.zero (Point.GetIntegerValue (some p))
    ∧ ReadsField p.StringValue [] (Point.GetStringValue (some p))
    ∧ ReadsField p.BooleanValue false (Point.GetBooleanValue (some p))
    ∧ Point.GetAux (some p) = .ok p.Aux
    ∧ (p.Aggregated = some ⟨128, by decide⟩ →
        Point.GetAggregated (some p) = .ok ⟨128, by decide⟩)
    ∧ (p.Aggregated = none → Point.GetAggregated (some p) = .ok ⟨0, by decide⟩)
    ∧ Point.GetFloatValue (some scenarioA) = .ok Float64.zero
    ∧ Point.GetIntegerValue (some scenarioA) = .ok Int64.zero
    ∧ Point.GetStringValue (some scenarioA) = .ok []
    ∧ Point.GetBooleanValue (some scenarioA) = .ok false := by
  refine ⟨getScalar_reads p _ _, getScalar_reads p _ _, getScalar_reads p _ _,
    getScalar_reads p _ _, getScalar_reads p _ _, getScalar_reads p _ _,
    getScalar_reads p _ _, getScalar_reads p _ _, getScalar_reads p _ _, rfl, ?_, ?_,
    rfl, rfl, rfl, rfl⟩
  · intro h
    exact (getScalar_reads p (fun r => r.Aggregated) Uint32.zero).1 _ h
  · intro h
    exact (getScalar_reads p (fun r => r.Aggregated) Uint32.zero).2 h

/-- C1 at a concrete record: a point holding `Aggregated = 128` and no `FloatValue`
    reads 128 and `+0.0`. -/
theorem Point_getters_read_fields_witness :
    Point.GetAggregated (some { Aggregated := some ⟨128, by decide⟩ }) = .ok ⟨128, by decide⟩
    ∧ Point.GetFloatValue (some { Aggregated := some ⟨128, by decide⟩ })
      = .ok Float64.zero :=
  ⟨(Point_getters_read_fields { Aggregated := some ⟨128, by decide⟩ }).2.2.2.2.2.2.2.2.2.2.1 rfl,
   (Point_getters_read_fields { Aggregated := some ⟨128, by decide⟩ }).2.2.2.2.2.1.2 rfl⟩

/-- C2. For every `Aux` and each of its fields, the getter called on a pointer to the
    record returns the stored value when the field is present and the zero value of the
    type when it is absent; every 32-bit signed `DataType` code is returned as it is
    stored. -/
theorem Aux_getters_read_fields (a : Aux) :
    ReadsField a.DataType Int32.zero (Aux.GetDataType (some a))
    ∧ ReadsField a.FloatValue Float64.zero (Aux.GetFloatValue (some a))
    ∧ ReadsField a.IntegerValue Int64.zero (Aux.GetIntegerValue (some a))
    ∧ ReadsField a.StringValue [] (Aux.GetStringValue (some a))
    ∧ ReadsField a.BooleanValue false (Aux.GetBooleanValue (some a))
    ∧ (∀ code : Int32, a.DataType = some code → Aux.GetDataType (some a) = .ok code) :=
  ⟨getScalar_reads a _ _, getScalar_reads a _ _, getScalar_reads a _ _,
    getScalar_reads a _ _, getScalar_reads a _ _,
    (getScalar_reads a (fun r => r.DataType) Int32.zero).1⟩

/-- C2 at a concrete record: the most negative 32-bit code is read back unchanged and
    the absent `StringValue` reads as the empty string. -/
theorem Aux_getters_read_fields_witness :
    Aux.GetDataType (some { DataType := some ⟨-2147483648, by decide⟩ })
      = .ok ⟨-2147483648, by decide⟩
    ∧ Aux.GetStringValue (some { DataType := some ⟨-2147483648, by decide⟩ }) = .ok [] :=
  ⟨(Aux_getters_read_fields { DataType := some ⟨-2147483648, by decide⟩ }).2.2.2.2.2 _ rfl,
   (Aux_getters_read_fields { DataType := some ⟨-2147483648, by decide⟩ }).2.2.2.1.2 rfl⟩

/-- C8. Value-field exclusivity is not enforced.  For all values `f`, `i`, `s`, `b`
    there is a `Point` with `Nil` true and all four value fields present; on every such
    point the four getters return `f`, `i`, `s`, `b`; and each value-field getter is a
    function of its own field alone, whatever `Nil` and the other fields hold. -/
theorem value_fields_not_exclusive (f : Float64) (i : Int64) (s : GoString) (b : Bool) :
    (∃ p : Point, p.Nil = some true ∧ p.FloatValue = some f ∧ p.IntegerValue = some i
        ∧ p.StringValue = some s ∧ p.BooleanValue = some b)
    ∧ (∀ p : Point, p.Nil = some true → p.FloatValue = some f → p.IntegerValue = some i →
        p.StringValue = some s → p.BooleanValue = some b →
        Point.GetFloatValue (some p) = .ok f ∧ Point.GetIntegerValue (some p) = .ok i
        ∧ Point.GetStringValue (some p) = .ok s ∧ Point.GetBooleanValue (some p) = .ok b)
    ∧ (∀ p q : Point, p.FloatValue = q.FloatValue →
        Point.GetFloatValue (some p) = Point.GetFloatValue (some q))
    ∧ (∀ p q : Point, p.IntegerValue = q.IntegerValue →
        Point.GetIntegerValue (some p) = Point.GetIntegerValue (some q))
    ∧ (∀ p q : Point, p.StringValue = q.StringValue →
        Point.GetStringValue (some p) = Point.GetStringValue (some q))
    ∧ (∀ p q : Point, p.BooleanValue = q.BooleanValue →
        Point.GetBooleanValue (some p) = Point.GetBooleanValue (some q)) := by
  refine ⟨⟨{ Nil := some true, FloatValue := some f, IntegerValue := some i,
             StringValue := some s, BooleanValue := some b }, rfl, rfl, rfl, rfl, rfl⟩,
    ?_, ?_, ?_, ?_, ?_⟩
  · intro p _ hf hi hs hb
    exact ⟨(getScalar_reads p (fun r => r.FloatValue) Float64.zero).1 f hf,
      (getScalar_reads p (fun r => r.IntegerValue) Int64.zero).1 i hi,
      (getScalar_reads p (fun r => r.StringValue) []).1 s hs,
      (getScalar_reads p (fun r => r.BooleanValue) false).1 b hb⟩
  · intro p q h
    simp only [Point.GetFloatValue, getScalar_some, h]
  · intro p q h
    simp only [Point.GetIntegerValue, getScalar_some, h]
  · intro p q h
    simp only [Point.GetStringValue, getScalar_some, h]
  · intro p q h
    simp only [Point.GetBooleanValue, getScalar_some, h]

/-- C8 at a concrete record: `Nil` true together with all four value fields. -/
theorem value_fields_not_exclusive_witness :
    Point.GetFloatValue (some allValuesPoint) = .ok ⟨4609434218613702656, by decide⟩
    ∧ Point.GetIntegerValue (some allValuesPoint) = .ok ⟨7, by decide⟩
    ∧ Point.GetStringValue (some allValuesPoint) = .ok [120]
    ∧ Point.GetBooleanValue (some allValuesPoint) = .ok true :=
  (value_fields_not_exclusive ⟨4609434218613702656, by decide⟩ ⟨7, by decide⟩ [120] true).2.1
    allValuesPoint rfl rfl rfl rfl rfl

/-- C9. Every getter is total.  On a nil receiver each returns the zero value of its
    type (the empty sequence for `GetAux`), and on any receiver, nil or not, with any
    field present or absent, no getter ends in a nil dereference. -/
theorem getters_total_on_nil :
    (Point.GetName none = .ok [] ∧ Point.GetTags none = .ok []
      ∧ Point.GetStringValue none = .ok [] ∧ Point.GetTime none = .ok Int64.zero
      ∧ Point.GetAggregated none = .ok Uint32.zero
      ∧ Point.GetFloatValue none = .ok Float64.zero
      ∧ Point.GetIntegerValue none = .ok Int64.zero ∧ Point.GetNil none = .ok false
      ∧ Point.GetBooleanValue none = .ok false ∧ Point.GetAux none = .ok [])
    ∧ (Aux.GetDataType none = .ok Int32.zero ∧ Aux.GetFloatValue none = .ok Float64.zero
      ∧ Aux.GetIntegerValue none = .ok Int64.zero ∧ Aux.GetStringValue none = .ok []
      ∧ Aux.GetBooleanValue none = .ok false)
    ∧ (∀ m : Ptr Point, (∃ v, Point.GetName m = .ok v) ∧ (∃ v, Point.GetTags m = .ok v)
      ∧ (∃ v, Point.GetTime m = .ok v) ∧ (∃ v, Point.GetNil m = .ok v)
      ∧ (∃ v, Point.GetAux m = .ok v) ∧ (∃ v, Point.GetAggregated m = .ok v)
      ∧ (∃ v, Point.GetFloatValue m = .ok v) ∧ (∃ v, Point.GetIntegerValue m = .ok v)
      ∧ (∃ v, Point.GetStringValue m = .ok v) ∧ (∃ v, Point.GetBooleanValue m = .ok v))
    ∧ (∀ m : Ptr Aux, (∃ v, Aux.GetDataType m = .ok v) ∧ (∃ v, Aux.GetFloatValue m = .ok v)
      ∧ (∃ v, Aux.GetIntegerValue m = .ok v) ∧ (∃ v, Aux.GetStringValue m = .ok v)
      ∧ (∃ v, Aux.GetBooleanValue m = .ok v)) := by
  refine ⟨⟨rfl, rfl, rfl, rfl, rfl, rfl, rfl, rfl, rfl, rfl⟩, ⟨rfl, rfl, rfl, rfl, rfl⟩, ?_, ?_⟩
  · intro m
    refine ⟨getScalar_total m _ _, getScalar_total m _ _, getScalar_total m _ _,
      getScalar_total m _ _, ?_, getScalar_total m _ _, getScalar_total m _ _,
      getScalar_total m _ _, getScalar_total m _ _, getScalar_total m _ _⟩
    cases m with
    | none => exact ⟨[], rfl⟩
    | some r => exact ⟨r.Aux, rfl⟩
  · intro m
    exact ⟨getScalar_total m _ _, getScalar_total m _ _, getScalar_total m _ _,
      getScalar_total m _ _, getScalar_total m _ _⟩

/-! ## Reset (C10) -/

/-- C10. `Reset` through a pointer to any `Point` (any `Aux`) leaves the record with
    every scalar field absent, the `Aux` sequence empty and the unknown-field buffer
    empty, so that every getter returns its zero value; resetting twice gives the same
    record as resetting once. -/
theorem Reset_restores_empty (p : Point) (a : Aux) :
    (∃ q : Point, Point.Reset (some p) = .ok (some q)
      ∧ q.Name = none ∧ q.Tags = none ∧ q.Time = none ∧ q.Nil = none ∧ q.Aux = []
      ∧ q.Aggregated = none ∧ q.FloatValue = none ∧ q.IntegerValue = none
      ∧ q.StringValue = none ∧ q.BooleanValue = none ∧ q.XXX_unrecognized = []
      ∧ Point.GetName (some q) = .ok [] ∧ Point.GetTags (some q) = .ok []
      ∧ Point.GetTime (some q) = .ok Int64.zero ∧ Point.GetNil (some q) = .ok false
      ∧ Point.GetAux (some q) = .ok [] ∧ Point.GetAggregated (some q) = .ok Uint32.zero
      ∧ Point.GetFloatValue (some q) = .ok Float64.zero
      ∧ Point.GetIntegerValue (some q) = .ok Int64.zero
      ∧ Point.GetStringValue (some q) = .ok [] ∧ Point.GetBooleanValue (some q) = .ok false
      ∧ Point.Reset (some q) = .ok (some q))
    ∧ (∃ b : Aux, Aux.Reset (some a) = .ok (some b)
      ∧ b.DataType = none ∧ b.FloatValue = none ∧ b.IntegerValue = none
      ∧ b.StringValue = none ∧ b.BooleanValue = none ∧ b.XXX_unrecognized = []
      ∧ Aux.GetDataType (some b) = .ok Int32.zero
      ∧ Aux.GetFloatValue (some b) = .ok Float64.zero
      ∧ Aux.GetIntegerValue (some b) = .ok Int64.zero
      ∧ Aux.GetStringValue (some b) = .ok [] ∧ Aux.GetBooleanValue (some b) = .ok false
      ∧ Aux.Reset (some b) = .ok (some b)) :=
  ⟨⟨{}, rfl, rfl, rfl, rfl, rfl, rfl, rfl, rfl, rfl, rfl, rfl, rfl, rfl, rfl, rfl, rfl,
      rfl, rfl, rfl, rfl, rfl, rfl, rfl⟩,
   ⟨{}, rfl, rfl, rfl, rfl, rfl, rfl, rfl, rfl, rfl, rfl, rfl, rfl, rfl⟩⟩

/-! ## Codec lemmas: primitives -/

theorem byteOf_val (n : Nat) : (byteOf n).val = n % 256 := rfl

theorem getVarintFuel_putVarintFuel (k : Nat) :
    ∀ (j n : Nat) (rest : List Byte), n < 128 ^ (k + 1) → k < j →
      getVarintFuel j (putVarintFuel k n ++ rest) = some (n, rest) := by
  induction k with
  | zero =>
    intro j n rest hn hj
    obtain ⟨j, rfl⟩ : ∃ i, j = i + 1 := ⟨j - 1, by omega⟩
    have hn' : n < 128 := by simpa using hn
    have h1 : n % 128 % 256 = n := by omega
    simp [putVarintFuel, getVarintFuel, byteOf_val, h1, hn']
  | succ k ih =>
    intro j n rest hn hj
    obtain ⟨j, rfl⟩ : ∃ i, j = i + 1 := ⟨j - 1, by omega⟩
    by_cases hlt : n < 128
    · have h1 : n % 256 = n := by omega
      simp [putVarintFuel, getVarintFuel, byteOf_val, h1, hlt]
    · have hdiv : n / 128 < 128 ^ (k + 1) := by
        rw [Nat.div_lt_iff_lt_mul (by decide)]
        calc n < 128 ^ (k + 1 + 1) := hn
          _ = 128 ^ (k + 1) * 128 := by rw [pow_succ]
      have h1 : (n % 128 + 128) % 256 = n % 128 + 128 := by omega
      simp [putVarintFuel, getVarintFuel, byteOf_val, h1, hlt,
        ih j (n / 128) rest hdiv (by omega)]
      omega

theorem getVarint_putVarint (n : Nat) (rest : List Byte) :
    getVarint (putVarint n ++ rest) = some (n % 18446744073709551616, rest) := by
  have hlt : n % 18446744073709551616 < 128 ^ (9 + 1) :=
    lt_trans (Nat.mod_lt _ (by decide)) (by norm_num)
  simp [getVarint, putVarint, getVarintFuel_putVarintFuel 9 10 _ rest hlt (by decide)]

theorem getVarint_putVarint_of_lt (n : Nat) (rest : List Byte)
    (h : n < 18446744073709551616) : getVarint (putVarint n ++ rest) = some (n, rest) := by
  rw [getVarint_putVarint, Nat.mod_eq_of_lt h]

theorem getFixed64_putFixed64 (n : Nat) (rest : List Byte) (h : n < 18446744073709551616) :
    getFixed64 (putFixed64 n ++ rest) = some (n, rest) := by
  simp only [putFixed64, getFixed64, byteOf_val, List.cons_append, List.nil_append,
    Option.some.injEq, Prod.mk.injEq, and_true]
  omega

theorem getVarintFuel_suffix (k : Nat) :
    ∀ (bs : List Byte) (v : Nat) (rest : List Byte),
      getVarintFuel k bs = some (v, rest) → ∃ pre, pre ≠ [] ∧ bs = pre ++ rest := by
  induction k with
  | zero =>
    intro bs v rest h
    simp [getVarintFuel] at h
  | succ k ih =>
    intro bs v rest h
    cases bs with
    | nil => simp [getVarintFuel] at h
    | cons b bs =>
      simp only [getVarintFuel] at h
      split at h
      · simp only [Option.some.injEq, Prod.mk.injEq] at h
        exact ⟨[b], by simp, by simp [h.2]⟩
      · split at h
        · simp at h
        · rename_i v1 r1 hrec
          simp only [Option.some.injEq, Prod.mk.injEq] at h
          obtain ⟨pre, _, hpre⟩ := ih bs v1 r1 hrec
          exact ⟨b :: pre, by simp, by simp [hpre, h.2]⟩

theorem getVarint_suffix (bs : List Byte) (v : Nat) (rest : List Byte)
    (h : getVarint bs = some (v, rest)) : ∃ pre, pre ≠ [] ∧ bs = pre ++ rest := by
  simp only [getVarint] at h
  split at h
  · simp at h
  · rename_i v1 r1 hrec
    simp only [Option.some.injEq, Prod.mk.injEq] at h
    obtain ⟨pre, hne, hpre⟩ := getVarintFuel_suffix 10 bs v1 r1 hrec
    exact ⟨pre, hne, by rw [hpre, h.2]⟩

theorem getFixed64_suffix (bs : List Byte) (v : Nat) (rest : List Byte)
    (h : getFixed64 bs = some (v, rest)) : ∃ pre, bs = pre ++ rest := by
  match bs, h with
  | b0 :: b1 :: b2 :: b3 :: b4 :: b5 :: b6 :: b7 :: r, h =>
    simp only [getFixed64, Option.some.injEq, Prod.mk.injEq] at h
    exact ⟨[b0, b1, b2, b3, b4, b5, b6, b7], by simp [h.2]⟩

theorem getFixed32_suffix (bs : List Byte) (v : Nat) (rest : List Byte)
    (h : getFixed32 bs = some (v, rest)) : ∃ pre, bs = pre ++ rest := by
  match bs, h with
  | b0 :: b1 :: b2 :: b3 :: r, h =>
    simp only [getFixed32, Option.some.injEq, Prod.mk.injEq] at h
    exact ⟨[b0, b1, b2, b3], by simp [h.2]⟩

theorem readBody_suffix (bs : List Byte) (t : Nat) (pl : Payload) (rest : List Byte)
    (h : readBody bs = some (t, pl, rest)) : ∃ pre, pre ≠ [] ∧ bs = pre ++ rest := by
  simp only [readBody] at h
  split at h
  · simp at h
  · rename_i key r1 hkey
    obtain ⟨pk, hpk, hbs⟩ := getVarint_suffix bs key r1 hkey
    have glue : ∀ mid : List Byte, r1 = mid ++ rest → ∃ pre, pre ≠ [] ∧ bs = pre ++ rest := by
      intro mid hmid
      exact ⟨pk ++ mid, by simp [hpk], by rw [hbs, hmid, List.append_assoc]⟩
    split_ifs at h
    · split at h
      · simp at h
      · rename_i v r2 hv
        simp only [Option.some.injEq, Prod.mk.injEq] at h
        obtain ⟨mid, _, hmid⟩ := getVarint_suffix r1 v r2 hv
        exact glue mid (by rw [hmid, h.2.2])
    · split at h
      · simp at h
      · rename_i v r2 hv
        simp only [Option.some.injEq, Prod.mk.injEq] at h
        obtain ⟨mid, hmid⟩ := getFixed64_suffix r1 v r2 hv
        exact glue mid (by rw [hmid, h.2.2])
    · split at h
      · simp at h
      · rename_i n r2 hv
        obtain ⟨mid, _, hmid⟩ := getVarint_suffix r1 n r2 hv
        split_ifs at h
        simp only [Option.some.injEq, Prod.mk.injEq] at h
        refine glue (mid ++ r2.take n) ?_
        rw [hmid, ← h.2.2, List.append_assoc, List.take_append_drop]
    · split at h
      · simp at h
      · rename_i v r2 hv
        simp only [Option.some.injEq, Prod.mk.injEq] at h
        obtain ⟨mid, hmid⟩ := getFixed32_suffix r1 v r2 hv
        exact glue mid (by rw [hmid, h.2.2])

theorem readField_raw (bs : List Byte) (f : Field) (rest : List Byte)
    (h : readField bs = some (f, rest)) : f.raw ≠ [] ∧ bs = f.raw ++ rest := by
  simp only [readField] at h
  split at h
  · simp at h
  · rename_i t pl r hbody
    simp only [Option.some.injEq, Prod.mk.injEq] at h
    obtain ⟨pre, hne, hbs⟩ := readBody_suffix bs t pl r hbody
    obtain ⟨hf, hr⟩ := h
    subst hr
    have hraw : f.raw = pre := by
      rw [← hf, hbs]
      simp
    rw [hraw]
    exact ⟨hne, hbs⟩

theorem readField_length (bs : List Byte) (f : Field) (rest : List Byte)
    (h : readField bs = some (f, rest)) : rest.length < bs.length := by
  obtain ⟨hne, hbs⟩ := readField_raw bs f rest h
  have : 0 < f.raw.length := List.length_pos.mpr hne
  rw [hbs, List.length_append]
  omega

/-! ## Codec lemmas: the field loop -/

theorem scanLoop_fuel (k1 : Nat) :
    ∀ (k2 : Nat) (bs : List Byte), bs.length ≤ k1 → bs.length ≤ k2 →
      scanLoop k1 bs = scanLoop k2 bs := by
  induction k1 with
  | zero =>
    intro k2 bs h1 _
    have : bs = [] := List.length_eq_zero.mp (by omega)
    subst this
    cases k2 <;> rfl
  | succ k1 ih =>
    intro k2 bs h1 h2
    cases bs with
    | nil => cases k2 <;> rfl
    | cons b bs =>
      obtain ⟨k2, rfl⟩ : ∃ i, k2 = i + 1 := ⟨k2 - 1, by simp at h2; omega⟩
      simp only [scanLoop]
      cases hrf : readField (b :: bs) with
      | none => rfl
      | some fr =>
        obtain ⟨f, rest⟩ := fr
        have hlen := readField_length _ _ _ hrf
        simp only [List.length_cons] at hlen h1 h2
        simp only [ih k2 rest (by omega) (by omega)]

theorem wireFields_nil : wireFields [] = some [] := rfl

theorem wireFields_step (bs : List Byte) (f : Field) (rest : List Byte)
    (h : readField bs = some (f, rest)) :
    wireFields bs = (wireFields rest).map (fun fs => f :: fs) := by
  cases bs with
  | nil => simp [readField, readBody, getVarint, getVarintFuel] at h
  | cons b bs =>
    have hlen := readField_length _ _ _ h
    simp only [List.length_cons] at hlen
    simp only [wireFields, List.length_cons, scanLoop, h]
    rw [scanLoop_fuel bs.length rest.length rest (by omega) (le_refl _)]
    cases scanLoop rest.length rest <;> rfl

theorem scanLoop_raw (k : Nat) :
    ∀ (bs : List Byte) (fs : List Field), scanLoop k bs = some fs →
      (fs.map (fun f => f.raw)).flatten = bs := by
  induction k with
  | zero =>
    intro bs fs h
    cases bs with
    | nil =>
      simp only [scanLoop, Option.some.injEq] at h
      subst h
      rfl
    | cons b bs => simp [scanLoop] at h
  | succ k ih =>
    intro bs fs h
    cases bs with
    | nil =>
      simp only [scanLoop, Option.some.injEq] at h
      subst h
      rfl
    | cons b bs =>
      simp only [scanLoop] at h
      cases hrf : readField (b :: bs) with
      | none => simp [hrf] at h
      | some fr =>
        obtain ⟨f, rest⟩ := fr
        simp only [hrf] at h
        cases hs : scanLoop k rest with
        | none => simp [hs] at h
        | some tl =>
          simp only [hs, Option.some.injEq] at h
          subst h
          have := (readField_raw _ _ _ hrf).2
          simp only [List.map_cons, List.flatten_cons, ih rest tl hs]
          exact this.symm

theorem wireFields_raw (bs : List Byte) (fs : List Field) (h : wireFields bs = some fs) :
    (fs.map (fun f => f.raw)).flatten = bs :=
  scanLoop_raw _ bs fs h

theorem decodeLoop_scan {M : Type} (apply : M → Field → Except CodecError M) (k : Nat) :
    ∀ (bs : List Byte) (acc : M) (fs : List Field), scanLoop k bs = some fs →
      decodeLoop apply k bs acc = applyAll apply acc fs := by
  induction k with
  | zero =>
    intro bs acc fs h
    cases bs with
    | nil =>
      simp only [scanLoop, Option.some.injEq] at h
      subst h
      rfl
    | cons b bs => simp [scanLoop] at h
  | succ k ih =>
    intro bs acc fs h
    cases bs with
    | nil =>
      simp only [scanLoop, Option.some.injEq] at h
      subst h
      rfl
    | cons b bs =>
      simp only [scanLoop] at h
      cases hrf : readField (b :: bs) with
      | none => simp [hrf] at h
      | some fr =>
        obtain ⟨f, rest⟩ := fr
        simp only [hrf] at h
        cases hs : scanLoop k rest with
        | none => simp [hs] at h
        | some tl =>
          simp only [hs, Option.some.injEq] at h
          subst h
          simp only [decodeLoop, hrf, applyAll]
          cases apply acc f with
          | error e => rfl
          | ok acc1 => exact ih rest acc1 tl hs

theorem decodeLoop_ok_scan {M : Type} (apply : M → Field → Except CodecError M) (k : Nat) :
    ∀ (bs : List Byte) (acc r : M), decodeLoop apply k bs acc = .ok r →
      ∃ fs, scanLoop k bs = some fs := by
  induction k with
  | zero =>
    intro bs acc r h
    cases bs with
    | nil => exact ⟨[], rfl⟩
    | cons b bs => simp [decodeLoop] at h
  | succ k ih =>
    intro bs acc r h
    cases bs with
    | nil => exact ⟨[], rfl⟩
    | cons b bs =>
      simp only [decodeLoop] at h
      cases hrf : readField (b :: bs) with
      | none => simp [hrf] at h
      | some fr =>
        obtain ⟨f, rest⟩ := fr
        simp only [hrf] at h
        cases hap : apply acc f with
        | error e => simp [hap] at h
        | ok acc1 =>
          simp only [hap] at h
          obtain ⟨tl, htl⟩ := ih rest acc1 r h
          exact ⟨f :: tl, by simp [scanLoop, hrf, htl]⟩

theorem decodeAll_of_wireFields {M : Type} (apply : M → Field → Except CodecError M)
    (bs : List Byte) (acc : M) (fs : List Field) (h : wireFields bs = some fs) :
    decodeAll apply bs acc = applyAll apply acc fs :=
  decodeLoop_scan apply _ bs acc fs h

theorem wireFields_of_decodeAll {M : Type} (apply : M → Field → Except CodecError M)
    (bs : List Byte) (acc r : M) (h : decodeAll apply bs acc = .ok r) :
    ∃ fs, wireFields bs = some fs :=
  decodeLoop_ok_scan apply _ bs acc r h

theorem applyAll_append {M : Type} (apply : M → Field → Except CodecError M) :
    ∀ (l1 l2 : List Field) (acc : M),
      applyAll apply acc (l1 ++ l2)
        = match applyAll apply acc l1 with
          | .error e => .error e
          | .ok acc1 => applyAll apply acc1 l2 := by
  intro l1
  induction l1 with
  | nil => intro l2 acc; rfl
  | cons f l1 ih =>
    intro l2 acc
    simp only [List.cons_append, applyAll]
    cases apply acc f with
    | error e => rfl
    | ok acc1 => exact ih l2 acc1

/-! ## Codec lemmas: dispatch -/

theorem Aux_apply_unrecognized (a b : Aux) (f : Field) (h : Aux.apply a f = .ok b) :
    b.XXX_unrecognized
      = a.XXX_unrecognized ++ (if f.tag ∈ declaredTags Aux.fields then [] else f.raw) := by
  unfold Aux.apply at h
  simp only [Aux.fDataType, Aux.fFloatValue, Aux.fIntegerValue, Aux.fStringValue,
    Aux.fBooleanValue] at h
  simp only [declaredTags, Aux.fields, Aux.fDataType, Aux.fFloatValue, Aux.fIntegerValue,
    Aux.fStringValue, Aux.fBooleanValue, List.map_cons, List.map_nil, List.mem_cons,
    List.mem_singleton, List.not_mem_nil, or_false]
  split_ifs at h <;> first
    | (split at h <;> simp_all <;> (subst h; simp))
    | (simp_all; subst h; simp)

theorem Aux_apply_DataType (a b : Aux) (f : Field) (h : Aux.apply a f = .ok b) :
    b.DataType.isSome = (a.DataType.isSome || decide (f.tag = 1)) := by
  unfold Aux.apply at h
  simp only [Aux.fDataType, Aux.fFloatValue, Aux.fIntegerValue, Aux.fStringValue,
    Aux.fBooleanValue] at h
  split_ifs at h <;> first
    | (split at h <;> simp_all <;> (subst h; simp_all))
    | (simp_all; subst h; simp_all)

theorem Aux_checkRequired_ok (a b : Aux) (h : Aux.checkRequired a = .ok b) :
    b = a ∧ a.DataType.isSome = true := by
  unfold Aux.checkRequired at h
  split at h
  · simp at h
  · rename_i v hv
    simp only [Except.ok.injEq] at h
    exact ⟨h.symm, by simp [hv]⟩

theorem Aux_decode_ok (bs : List Byte) (a : Aux) (h : Aux.decode bs = .ok a) :
    Aux.decodeFields bs = .ok a ∧ a.DataType.isSome = true := by
  unfold Aux.decode at h
  split at h
  · simp at h
  · rename_i b hb
    obtain ⟨rfl, hd⟩ := Aux_checkRequired_ok b a h
    exact ⟨hb, hd⟩

/-- The eleven ways `Point.apply` succeeds: one per declared tag, and the unknown tag. -/
theorem Point_apply_cases (p q : Point) (f : Field) (h : Point.apply p f = .ok q) :
    (f.tag = 1 ∧ ∃ b, q = { p with Name := some b })
    ∨ (f.tag = 2 ∧ ∃ b, q = { p with Tags := some b })
    ∨ (f.tag = 3 ∧ ∃ v, q = { p with Time := some v })
    ∨ (f.tag = 4 ∧ ∃ v, q = { p with Nil := some v })
    ∨ (f.tag = 5 ∧ ∃ a : Internal.Aux, a.DataType.isSome = true
        ∧ q = { p with Aux := p.Aux ++ [some a] })
    ∨ (f.tag = 6 ∧ ∃ v, q = { p with Aggregated := some v })
    ∨ (f.tag = 7 ∧ ∃ v, q = { p with FloatValue := some v })
    ∨ (f.tag = 8 ∧ ∃ v, q = { p with IntegerValue := some v })
    ∨ (f.tag = 9 ∧ ∃ v, q = { p with StringValue := some v })
    ∨ (f.tag = 10 ∧ ∃ v, q = { p with BooleanValue := some v })
    ∨ (f.tag ∉ declaredTags Point.fields
        ∧ q = { p with XXX_unrecognized := p.XXX_unrecognized ++ f.raw }) := by
  unfold Point.apply at h
  by_cases h1 : f.tag = Point.fName.tag
  · rw [if_pos h1] at h
    cases hp : f.payload <;> simp only [hp] at h <;> try (exact Except.noConfusion h)
    exact Or.inl ⟨h1, _, (Except.ok.inj h).symm⟩
  rw [if_neg h1] at h
  by_cases h2 : f.tag = Point.fTags.tag
  · rw [if_pos h2] at h
    cases hp : f.payload <;> simp only [hp] at h <;> try (exact Except.noConfusion h)
    exact Or.inr (Or.inl ⟨h2, _, (Except.ok.inj h).symm⟩)
  rw [if_neg h2] at h
  by_cases h3 : f.tag = Point.fTime.tag
  · rw [if_pos h3] at h
    cases hp : f.payload <;> simp only [hp] at h <;> try (exact Except.noConfusion h)
    exact Or.inr (Or.inr (Or.inl ⟨h3, _, (Except.ok.inj h).symm⟩))
  rw [if_neg h3] at h
  by_cases h4 : f.tag = Point.fNil.tag
  · rw [if_pos h4] at h
    cases hp : f.payload <;> simp only [hp] at h <;> try (exact Except.noConfusion h)
    exact Or.inr (Or.inr (Or.inr (Or.inl ⟨h4, _, (Except.ok.inj h).symm⟩)))
  rw [if_neg h4] at h
  by_cases h5 : f.tag = Point.fAux.tag
  · rw [if_pos h5] at h
    cases hp : f.payload <;> simp only [hp] at h <;> try (exact Except.noConfusion h)
    rename_i b
    cases hd : Internal.Aux.decode b with
    | error e => simp [hd] at h
    | ok a =>
      simp only [hd] at h
      exact Or.inr (Or.inr (Or.inr (Or.inr (Or.inl ⟨h5, a, (Aux_decode_ok _ _ hd).2, (Except.ok.inj h).symm⟩))))
  rw [if_neg h5] at h
  by_cases h6 : f.tag = Point.fAggregated.tag
  · rw [if_pos h6] at h
    cases hp : f.payload <;> simp only [hp] at h <;> try (exact Except.noConfusion h)
    exact Or.inr (Or.inr (Or.inr (Or.inr (Or.inr (Or.inl ⟨h6, _, (Except.ok.inj h).symm⟩)))))
  rw [if_neg h6] at h
  by_cases h7 : f.tag = Point.fFloatValue.tag
  · rw [if_pos h7] at h
    cases hp : f.payload <;> simp only [hp] at h <;> try (exact Except.noConfusion h)
    exact Or.inr (Or.inr (Or.inr (Or.inr (Or.inr (Or.inr (Or.inl ⟨h7, _, (Except.ok.inj h).symm⟩))))))
  rw [if_neg h7] at h
  by_cases h8 : f.tag = Point.fIntegerValue.tag
  · rw [if_pos h8] at h
    cases hp : f.payload <;> simp only [hp] at h <;> try (exact Except.noConfusion h)
    exact Or.inr (Or.inr (Or.inr (Or.inr (Or.inr (Or.inr (Or.inr (Or.inl ⟨h8, _, (Except.ok.inj h).symm⟩)))))))
  rw [if_neg h8] at h
  by_cases h9 : f.tag = Point.fStringValue.tag
  · rw [if_pos h9] at h
    cases hp : f.payload <;> simp only [hp] at h <;> try (exact Except.noConfusion h)
    exact Or.inr (Or.inr (Or.inr (Or.inr (Or.inr (Or.inr (Or.inr (Or.inr (Or.inl ⟨h9, _, (Except.ok.inj h).symm⟩))))))))
  rw [if_neg h9] at h
  by_cases h10 : f.tag = Point.fBooleanValue.tag
  · rw [if_pos h10] at h
    cases hp : f.payload <;> simp only [hp] at h <;> try (exact Except.noConfusion h)
    exact Or.inr (Or.inr (Or.inr (Or.inr (Or.inr (Or.inr (Or.inr (Or.inr (Or.inr (Or.inl ⟨h10, _, (Except.ok.inj h).symm⟩)))))))))
  rw [if_neg h10] at h
  refine Or.inr (Or.inr (Or.inr (Or.inr (Or.inr (Or.inr (Or.inr (Or.inr (Or.inr (Or.inr (⟨?_, (Except.ok.inj h).symm⟩))))))))))
  simp only [declaredTags, Point.fields, List.map_cons, List.map_nil, List.mem_cons,
    List.not_mem_nil, or_false]
  tauto

theorem Point_apply_unrecognized (p q : Point) (f : Field) (h : Point.apply p f = .ok q) :
    q.XXX_unrecognized
      = p.XXX_unrecognized ++ (if f.tag ∈ declaredTags Point.fields then [] else f.raw) := by
  have hmem : ∀ n, n ∈ [1, 2, 3, 4, 5, 6, 7, 8, 9, 10] → f.tag = n →
      f.tag ∈ declaredTags Point.fields := by
    intro n hn hf
    rw [hf]
    exact hn
  rcases Point_apply_cases p q f h with
    ⟨h1, _, rfl⟩ | ⟨h1, _, rfl⟩ | ⟨h1, _, rfl⟩ | ⟨h1, _, rfl⟩ | ⟨h1, _, _, rfl⟩ | ⟨h1, _, rfl⟩
    | ⟨h1, _, rfl⟩ | ⟨h1, _, rfl⟩ | ⟨h1, _, rfl⟩ | ⟨h1, _, rfl⟩ | ⟨h1, rfl⟩
  all_goals first
    | (rw [if_pos (hmem _ (by decide) h1)]; simp)
    | (rw [if_neg h1])

theorem Point_apply_required (p q : Point) (f : Field) (h : Point.apply p f = .ok q) :
    q.Name.isSome = (p.Name.isSome || decide (f.tag = 1))
    ∧ q.Tags.isSome = (p.Tags.isSome || decide (f.tag = 2))
    ∧ q.Time.isSome = (p.Time.isSome || decide (f.tag = 3))
    ∧ q.Nil.isSome = (p.Nil.isSome || decide (f.tag = 4)) := by
  rcases Point_apply_cases p q f h with
    ⟨h1, _, rfl⟩ | ⟨h1, _, rfl⟩ | ⟨h1, _, rfl⟩ | ⟨h1, _, rfl⟩ | ⟨h1, _, _, rfl⟩ | ⟨h1, _, rfl⟩
    | ⟨h1, _, rfl⟩ | ⟨h1, _, rfl⟩ | ⟨h1, _, rfl⟩ | ⟨h1, _, rfl⟩ | ⟨h1, rfl⟩
  case inr.inr.inr.inr.inr.inr.inr.inr.inr.inr.intro =>
    have h2 : f.tag ≠ 1 ∧ f.tag ≠ 2 ∧ f.tag ≠ 3 ∧ f.tag ≠ 4 := by
      refine ⟨?_, ?_, ?_, ?_⟩ <;> intro hh <;> apply h1 <;> rw [hh] <;> decide
    simp [h2.1, h2.2.1, h2.2.2.1, h2.2.2.2]
  all_goals simp [h1]

theorem Point_apply_Aux (p q : Point) (f : Field) (h : Point.apply p f = .ok q) :
    ∀ x ∈ q.Aux, x ∈ p.Aux ∨ ∃ a : Internal.Aux, x = some a ∧ a.DataType.isSome = true := by
  rcases Point_apply_cases p q f h with
    ⟨h1, _, rfl⟩ | ⟨h1, _, rfl⟩ | ⟨h1, _, rfl⟩ | ⟨h1, _, rfl⟩ | ⟨h1, a, ha, rfl⟩ | ⟨h1, _, rfl⟩
    | ⟨h1, _, rfl⟩ | ⟨h1, _, rfl⟩ | ⟨h1, _, rfl⟩ | ⟨h1, _, rfl⟩ | ⟨h1, rfl⟩
  case inr.inr.inr.inr.inl =>
    intro x hx
    simp only [List.mem_append, List.mem_singleton] at hx
    rcases hx with hx | hx
    · exact Or.inl hx
    · exact Or.inr ⟨a, hx, ha⟩
  all_goals exact fun x hx => Or.inl hx

theorem unknownBytes_nil (table : List FieldDesc) : unknownBytes table [] = [] := rfl

theorem unknownBytes_cons (table : List FieldDesc) (f : Field) (fs : List Field) :
    unknownBytes table (f :: fs)
      = (if f.tag ∈ declaredTags table then [] else f.raw) ++ unknownBytes table fs := by
  unfold unknownBytes
  by_cases h : f.tag ∈ declaredTags table
  · simp [List.filter_cons, h]
  · simp [List.filter_cons, h]

theorem Aux_applyAll_unrecognized (fs : List Field) :
    ∀ a b : Aux, applyAll Aux.apply a fs = .ok b →
      b.XXX_unrecognized = a.XXX_unrecognized ++ unknownBytes Aux.fields fs := by
  induction fs with
  | nil =>
    intro a b h
    simp only [applyAll, Except.ok.injEq] at h
    subst h
    simp [unknownBytes_nil]
  | cons f fs ih =>
    intro a b h
    simp only [applyAll] at h
    cases hap : Aux.apply a f with
    | error e => simp [hap] at h
    | ok a1 =>
      simp only [hap] at h
      rw [ih a1 b h, Aux_apply_unrecognized a a1 f hap, unknownBytes_cons, List.append_assoc]

theorem Point_applyAll_unrecognized (fs : List Field) :
    ∀ p q : Point, applyAll Point.apply p fs = .ok q →
      q.XXX_unrecognized = p.XXX_unrecognized ++ unknownBytes Point.fields fs := by
  induction fs with
  | nil =>
    intro p q h
    simp only [applyAll, Except.ok.injEq] at h
    subst h
    simp [unknownBytes_nil]
  | cons f fs ih =>
    intro p q h
    simp only [applyAll] at h
    cases hap : Point.apply p f with
    | error e => simp [hap] at h
    | ok p1 =>
      simp only [hap] at h
      rw [ih p1 q h, Point_apply_unrecognized p p1 f hap, unknownBytes_cons,
        List.append_assoc]

theorem Aux_applyAll_DataType (fs : List Field) :
    ∀ a b : Aux, applyAll Aux.apply a fs = .ok b →
      b.DataType.isSome = (a.DataType.isSome || decide (1 ∈ fs.map (fun f => f.tag))) := by
  induction fs with
  | nil =>
    intro a b h
    simp only [applyAll, Except.ok.injEq] at h
    subst h
    simp
  | cons f fs ih =>
    intro a b h
    simp only [applyAll] at h
    cases hap : Aux.apply a f with
    | error e => simp [hap] at h
    | ok a1 =>
      simp only [hap] at h
      rw [ih a1 b h, Aux_apply_DataType a a1 f hap]
      by_cases h1 : f.tag = 1 <;> simp [h1, eq_comm]

theorem Point_applyAll_required (fs : List Field) :
    ∀ p q : Point, applyAll Point.apply p fs = .ok q →
      q.Name.isSome = (p.Name.isSome || decide (1 ∈ fs.map (fun f => f.tag)))
      ∧ q.Tags.isSome = (p.Tags.isSome || decide (2 ∈ fs.map (fun f => f.tag)))
      ∧ q.Time.isSome = (p.Time.isSome || decide (3 ∈ fs.map (fun f => f.tag)))
      ∧ q.Nil.isSome = (p.Nil.isSome || decide (4 ∈ fs.map (fun f => f.tag))) := by
  induction fs with
  | nil =>
    intro p q h
    simp only [applyAll, Except.ok.injEq] at h
    subst h
    simp
  | cons f fs ih =>
    intro p q h
    simp only [applyAll] at h
    cases hap : Point.apply p f with
    | error e => simp [hap] at h
    | ok p1 =>
      simp only [hap] at h
      obtain ⟨i1, i2, i3, i4⟩ := ih p1 q h
      obtain ⟨a1, a2, a3, a4⟩ := Point_apply_required p p1 f hap
      rw [i1, i2, i3, i4, a1, a2, a3, a4]
      refine ⟨?_, ?_, ?_, ?_⟩
      · by_cases h1 : f.tag = 1 <;> simp [h1, eq_comm]
      · by_cases h1 : f.tag = 2 <;> simp [h1, eq_comm]
      · by_cases h1 : f.tag = 3 <;> simp [h1, eq_comm]
      · by_cases h1 : f.tag = 4 <;> simp [h1, eq_comm]

theorem Point_applyAll_Aux (fs : List Field) :
    ∀ p q : Point, applyAll Point.apply p fs = .ok q →
      ∀ x ∈ q.Aux, x ∈ p.Aux ∨ ∃ a : Internal.Aux, x = some a ∧ a.DataType.isSome = true := by
  induction fs with
  | nil =>
    intro p q h
    simp only [applyAll, Except.ok.injEq] at h
    subst h
    exact fun x hx => Or.inl hx
  | cons f fs ih =>
    intro p q h
    simp only [applyAll] at h
    cases hap : Point.apply p f with
    | error e => simp [hap] at h
    | ok p1 =>
      simp only [hap] at h
      intro x hx
      rcases ih p1 q h x hx with h1 | h1
      · exact Point_apply_Aux p p1 f hap x h1
      · exact Or.inr h1

/-! ## Codec lemmas: required fields and re-encoding -/

theorem Point_checkRequired_ok (p q : Point) (h : Point.checkRequired p = .ok q) :
    q = p ∧ p.Name.isSome = true ∧ p.Tags.isSome = true ∧ p.Time.isSome = true
      ∧ p.Nil.isSome = true := by
  unfold Point.checkRequired at h
  cases h1 : p.Name with
  | none => simp [h1] at h
  | some _ =>
    cases h2 : p.Tags with
    | none => simp [h1, h2] at h
    | some _ =>
      cases h3 : p.Time with
      | none => simp [h1, h2, h3] at h
      | some _ =>
        cases h4 : p.Nil with
        | none => simp [h1, h2, h3, h4] at h
        | some _ =>
          simp only [h1, h2, h3, h4, Except.ok.injEq] at h
          exact ⟨h.symm, rfl, rfl, rfl, rfl⟩

theorem Point_decode_ok (bs : List Byte) (p : Point) (h : Point.decode bs = .ok p) :
    Point.decodeFields bs = .ok p ∧ p.Name.isSome = true ∧ p.Tags.isSome = true
      ∧ p.Time.isSome = true ∧ p.Nil.isSome = true := by
  unfold Point.decode at h
  split at h
  · simp at h
  · rename_i q hq
    obtain ⟨rfl, hr⟩ := Point_checkRequired_ok q p h
    exact ⟨hq, hr⟩

theorem suffix_append_left {α : Type} (u x a : List α) (h : u <:+ x) : u <:+ a ++ x :=
  h.trans (List.suffix_append a x)

theorem Aux_encode_ok (a : Aux) (h : a.DataType.isSome = true) :
    ∃ out, Aux.encode a = .ok out ∧ a.XXX_unrecognized <:+ out := by
  unfold Aux.encode
  cases hd : a.DataType with
  | none => simp [hd] at h
  | some dt =>
    refine ⟨_, rfl, ?_⟩
    repeat apply suffix_append_left
    exact List.suffix_refl _

theorem encodeAuxList_ok (l : List (Ptr Aux))
    (h : ∀ x ∈ l, ∃ a : Aux, x = some a ∧ a.DataType.isSome = true) :
    ∃ bs, encodeAuxList l = .ok bs := by
  induction l with
  | nil => exact ⟨[], rfl⟩
  | cons x xs ih =>
    obtain ⟨a, rfl, ha⟩ := h x (List.mem_cons_self _ _)
    obtain ⟨out, hk, _⟩ := Aux_encode_ok a ha
    obtain ⟨bs, hbs⟩ := ih (fun y hy => h y (List.mem_cons_of_mem _ hy))
    exact ⟨putBytesField Point.fAux out ++ bs, by
      simp [encodeAuxList, encodeAuxElem, hk, hbs]⟩

theorem Point_encode_ok (p : Point) (h1 : p.Name.isSome = true) (h2 : p.Tags.isSome = true)
    (h3 : p.Time.isSome = true) (h4 : p.Nil.isSome = true)
    (h5 : ∀ x ∈ p.Aux, ∃ a : Internal.Aux, x = some a ∧ a.DataType.isSome = true) :
    ∃ out, Point.encode p = .ok out ∧ p.XXX_unrecognized <:+ out := by
  unfold Point.encode
  cases e1 : p.Name with
  | none => simp [e1] at h1
  | some _ =>
    cases e2 : p.Tags with
    | none => simp [e2] at h2
    | some _ =>
      cases e3 : p.Time with
      | none => simp [e3] at h3
      | some _ =>
        cases e4 : p.Nil with
        | none => simp [e4] at h4
        | some _ =>
          obtain ⟨aux, haux⟩ := encodeAuxList_ok p.Aux h5
          simp only [haux]
          refine ⟨_, rfl, ?_⟩
          repeat apply suffix_append_left
          exact List.suffix_refl _

theorem raw_infix_unknownBytes (table : List FieldDesc) (fs : List Field) (f : Field)
    (hf : f ∈ fs) (hu : f.tag ∉ declaredTags table) : f.raw <:+: unknownBytes table fs := by
  induction fs with
  | nil => simp at hf
  | cons g fs ih =>
    rw [unknownBytes_cons]
    rcases List.mem_cons.mp hf with rfl | hmem
    · rw [if_neg hu]
      exact ⟨[], unknownBytes table fs, by simp⟩
    · obtain ⟨s, t, hst⟩ := ih hmem
      exact ⟨(if g.tag ∈ declaredTags table then [] else g.raw) ++ s, t, by
        simp [← hst, List.append_assoc]⟩

/-! ## Unknown-tag preservation (C7) -/

/-- C7. Whenever a payload decodes (as a `Point`, as an `Aux`), it splits into fields
    whose bytes, concatenated, are the payload; the unknown-field buffer of the decoded
    record is exactly the bytes of the fields with an undeclared tag, in wire order, so
    the bytes of each such field stand verbatim in it; and re-encoding the decoded
    record succeeds with that buffer as the tail of the output. -/
theorem unknown_fields_preserved :
    (∀ (bs : List Byte) (r : Point), Point.decode bs = .ok r →
      ∃ fs, wireFields bs = some fs
        ∧ (fs.map (fun f => f.raw)).flatten = bs
        ∧ r.XXX_unrecognized = unknownBytes Point.fields fs
        ∧ (∀ f ∈ fs, f.tag ∉ declaredTags Point.fields → f.raw <:+: r.XXX_unrecognized)
        ∧ ∃ out, Point.encode r = .ok out ∧ r.XXX_unrecognized <:+ out)
    ∧ (∀ (bs : List Byte) (a : Aux), Aux.decode bs = .ok a →
      ∃ fs, wireFields bs = some fs
        ∧ (fs.map (fun f => f.raw)).flatten = bs
        ∧ a.XXX_unrecognized = unknownBytes Aux.fields fs
        ∧ (∀ f ∈ fs, f.tag ∉ declaredTags Aux.fields → f.raw <:+: a.XXX_unrecognized)
        ∧ ∃ out, Aux.encode a = .ok out ∧ a.XXX_unrecognized <:+ out) := by
  constructor
  · intro bs r h
    obtain ⟨hfields, h1, h2, h3, h4⟩ := Point_decode_ok bs r h
    obtain ⟨fs, hfs⟩ := wireFields_of_decodeAll Point.apply bs {} r hfields
    have happ : applyAll Point.apply {} fs = .ok r := by
      rw [← decodeAll_of_wireFields Point.apply bs {} fs hfs]
      exact hfields
    have hun : r.XXX_unrecognized = unknownBytes Point.fields fs := by
      rw [Point_applyAll_unrecognized fs {} r happ]
      rfl
    refine ⟨fs, hfs, wireFields_raw bs fs hfs, hun, ?_, ?_⟩
    · intro f hf hu
      rw [hun]
      exact raw_infix_unknownBytes Point.fields fs f hf hu
    · refine Point_encode_ok r h1 h2 h3 h4 ?_
      intro x hx
      rcases Point_applyAll_Aux fs {} r happ x hx with hmem | hgood
      · simp at hmem
      · exact hgood
  · intro bs a h
    obtain ⟨hfields, h1⟩ := Aux_decode_ok bs a h
    obtain ⟨fs, hfs⟩ := wireFields_of_decodeAll Aux.apply bs {} a hfields
    have happ : applyAll Aux.apply {} fs = .ok a := by
      rw [← decodeAll_of_wireFields Aux.apply bs {} fs hfs]
      exact hfields
    have hun : a.XXX_unrecognized = unknownBytes Aux.fields fs := by
      rw [Aux_applyAll_unrecognized fs {} a happ]
      rfl
    refine ⟨fs, hfs, wireFields_raw bs fs hfs, hun, ?_, Aux_encode_ok a h1⟩
    intro f hf hu
    rw [hun]
    exact raw_infix_unknownBytes Aux.fields fs f hf hu

/-- C7 at a concrete payload: scenario A followed by a varint field of tag 15. -/
theorem unknown_fields_preserved_witness :
    Point.decode payloadUnknown = .ok decodedUnknown
    ∧ decodedUnknown.XXX_unrecognized = [120, 128, 1]
    ∧ Point.encode decodedUnknown = .ok payloadUnknown
    ∧ ∃ fs, wireFields payloadUnknown = some fs
        ∧ (fs.map (fun f => f.raw)).flatten = payloadUnknown
        ∧ decodedUnknown.XXX_unrecognized = unknownBytes Point.fields fs
        ∧ (∀ f ∈ fs, f.tag ∉ declaredTags Point.fields →
            f.raw <:+: decodedUnknown.XXX_unrecognized)
        ∧ ∃ out, Point.encode decodedUnknown = .ok out
            ∧ decodedUnknown.XXX_unrecognized <:+ out :=
  ⟨rfl, rfl, rfl, unknown_fields_preserved.1 payloadUnknown decodedUnknown rfl⟩

/-! ## Missing-required rejection (C6) -/

theorem Point_required_of_fields (bs : List Byte) (acc : Point) (fs : List Field)
    (hacc : Point.decodeFields bs = .ok acc) (hfs : wireFields bs = some fs) :
    acc.Name.isSome = decide (1 ∈ fs.map (fun f => f.tag))
    ∧ acc.Tags.isSome = decide (2 ∈ fs.map (fun f => f.tag))
    ∧ acc.Time.isSome = decide (3 ∈ fs.map (fun f => f.tag))
    ∧ acc.Nil.isSome = decide (4 ∈ fs.map (fun f => f.tag)) := by
  have happ : applyAll Point.apply {} fs = .ok acc := by
    rw [← decodeAll_of_wireFields Point.apply bs {} fs hfs]
    exact hacc
  simpa using Point_applyAll_required fs {} acc happ

theorem Point_absentRequired_eq (fs : List Field) :
    absentRequired Point.fields fs
      = (if 1 ∈ fs.map (fun f => f.tag) then [] else ["Name"])
        ++ ((if 2 ∈ fs.map (fun f => f.tag) then [] else ["Tags"])
        ++ ((if 3 ∈ fs.map (fun f => f.tag) then [] else ["Time"])
        ++ (if 4 ∈ fs.map (fun f => f.tag) then [] else ["Nil"]))) := by
  have hreq : Point.fields.filter (fun d => decide (d.label = .req))
      = [Point.fName, Point.fTags, Point.fTime, Point.fNil] := by decide
  unfold absentRequired
  rw [hreq]
  simp only [List.filter_cons, List.filter_nil, Point.fName, Point.fTags, Point.fTime,
    Point.fNil]
  by_cases h1 : 1 ∈ fs.map (fun f => f.tag) <;> by_cases h2 : 2 ∈ fs.map (fun f => f.tag)
    <;> by_cases h3 : 3 ∈ fs.map (fun f => f.tag)
    <;> by_cases h4 : 4 ∈ fs.map (fun f => f.tag)
    <;> simp [h1, h2, h3, h4]

/-- The required fields a record lacks, lowest tag first. -/
theorem Point_checkRequired_absent (acc : Point) :
    Point.checkRequired acc
      = match (if acc.Name.isSome = true then [] else ["Name"])
            ++ ((if acc.Tags.isSome = true then [] else ["Tags"])
            ++ ((if acc.Time.isSome = true then [] else ["Time"])
            ++ (if acc.Nil.isSome = true then [] else ["Nil"]))) with
        | [] => .ok acc
        | n :: _ => .error (.MissingRequiredField n) := by
  unfold Point.checkRequired
  cases acc.Name <;> cases acc.Tags <;> cases acc.Time <;> cases acc.Nil <;> rfl

theorem Point_absentRequired_of_fields (bs : List Byte) (acc : Point) (fs : List Field)
    (hacc : Point.decodeFields bs = .ok acc) (hfs : wireFields bs = some fs) :
    absentRequired Point.fields fs
      = (if acc.Name.isSome = true then [] else ["Name"])
        ++ ((if acc.Tags.isSome = true then [] else ["Tags"])
        ++ ((if acc.Time.isSome = true then [] else ["Time"])
        ++ (if acc.Nil.isSome = true then [] else ["Nil"]))) := by
  obtain ⟨f1, f2, f3, f4⟩ := Point_required_of_fields bs acc fs hacc hfs
  have i1 : (1 ∈ fs.map (fun f => f.tag)) ↔ acc.Name.isSome = true := by
    rw [f1, decide_eq_true_iff]
  have i2 : (2 ∈ fs.map (fun f => f.tag)) ↔ acc.Tags.isSome = true := by
    rw [f2, decide_eq_true_iff]
  have i3 : (3 ∈ fs.map (fun f => f.tag)) ↔ acc.Time.isSome = true := by
    rw [f3, decide_eq_true_iff]
  have i4 : (4 ∈ fs.map (fun f => f.tag)) ↔ acc.Nil.isSome = true := by
    rw [f4, decide_eq_true_iff]
  rw [Point_absentRequired_eq]
  simp only [i1, i2, i3, i4]

/-- C6. A payload whose field loop succeeds but which lacks a required tag is rejected
    with `MissingRequiredField` naming an absent required field, the one of lowest tag
    (so a payload lacking only Time is rejected with "Time"); an `Aux` payload without
    tag 1 is rejected naming DataType; and encoding a `Point` with Name, Tags, Time or
    Nil absent, or an `Aux` with DataType absent, fails with `MissingRequiredField`
    naming an absent field. -/
theorem missing_required_rejected :
    (∀ (bs : List Byte) (acc : Point), Point.decodeFields bs = .ok acc →
      ∃ fs, wireFields bs = some fs
        ∧ (absentRequired Point.fields fs = [] → Point.decode bs = .ok acc)
        ∧ (∀ n rest, absentRequired Point.fields fs = n :: rest →
            Point.decode bs = .error (.MissingRequiredField n))
        ∧ ((∀ f ∈ fs, f.tag ≠ 3) → (∃ f ∈ fs, f.tag = 1) → (∃ f ∈ fs, f.tag = 2) →
            Point.decode bs = .error (.MissingRequiredField "Time")))
    ∧ (∀ (bs : List Byte) (acc : Aux), Aux.decodeFields bs = .ok acc →
      ∃ fs, wireFields bs = some fs
        ∧ ((∀ f ∈ fs, f.tag ≠ 1) →
            Aux.decode bs = .error (.MissingRequiredField "DataType")))
    ∧ (∀ p : Point, (p.Name = none ∨ p.Tags = none ∨ p.Time = none ∨ p.Nil = none) →
      ∃ n, Point.encode p = .error (.MissingRequiredField n)
        ∧ ((n = "Name" ∧ p.Name = none) ∨ (n = "Tags" ∧ p.Tags = none)
          ∨ (n = "Time" ∧ p.Time = none) ∨ (n = "Nil" ∧ p.Nil = none)))
    ∧ (∀ a : Aux, a.DataType = none →
      Aux.encode a = .error (.MissingRequiredField "DataType")) := by
  refine ⟨?_, ?_, ?_, ?_⟩
  · intro bs acc hacc
    obtain ⟨fs, hfs⟩ := wireFields_of_decodeAll Point.apply bs {} acc hacc
    have hdec : Point.decode bs = Point.checkRequired acc := by
      unfold Point.decode
      rw [hacc]
    have habsEq := Point_absentRequired_of_fields bs acc fs hacc hfs
    have hsome : ∀ n rest, absentRequired Point.fields fs = n :: rest →
        Point.decode bs = .error (.MissingRequiredField n) := by
      intro n rest habs
      rw [hdec, Point_checkRequired_absent, ← habsEq, habs]
    refine ⟨fs, hfs, ?_, hsome, ?_⟩
    · intro habs
      rw [hdec, Point_checkRequired_absent, ← habsEq, habs]
    · intro h3 h1 h2
      have m1 : 1 ∈ fs.map (fun f => f.tag) := by
        obtain ⟨f, hf, ht⟩ := h1
        exact List.mem_map.mpr ⟨f, hf, ht⟩
      have m2 : 2 ∈ fs.map (fun f => f.tag) := by
        obtain ⟨f, hf, ht⟩ := h2
        exact List.mem_map.mpr ⟨f, hf, ht⟩
      have m3 : 3 ∉ fs.map (fun f => f.tag) := by
        intro hm
        obtain ⟨f, hf, ht⟩ := List.mem_map.mp hm
        exact h3 f hf ht
      refine hsome "Time" (if 4 ∈ fs.map (fun f => f.tag) then [] else ["Nil"]) ?_
      rw [Point_absentRequired_eq, if_pos m1, if_pos m2, if_neg m3]
      rfl
  · intro bs acc hacc
    obtain ⟨fs, hfs⟩ := wireFields_of_decodeAll Aux.apply bs {} acc hacc
    have happ : applyAll Aux.apply {} fs = .ok acc := by
      rw [← decodeAll_of_wireFields Aux.apply bs {} fs hfs]
      exact hacc
    refine ⟨fs, hfs, ?_⟩
    intro h1
    have m1 : 1 ∉ fs.map (fun f => f.tag) := by
      intro hm
      obtain ⟨f, hf, ht⟩ := List.mem_map.mp hm
      exact h1 f hf ht
    have hflag := Aux_applyAll_DataType fs {} acc happ
    rw [decide_eq_false m1] at hflag
    unfold Aux.decode
    rw [hacc]
    unfold Aux.checkRequired
    cases e1 : acc.DataType with
    | none => simp only [e1]; rfl
    | some v =>
      rw [e1] at hflag
      simp at hflag
  · intro p h
    unfold Point.encode
    cases e1 : p.Name with
    | none => exact ⟨"Name", rfl, Or.inl ⟨rfl, rfl⟩⟩
    | some _ =>
      cases e2 : p.Tags with
      | none => exact ⟨"Tags", rfl, Or.inr (Or.inl ⟨rfl, rfl⟩)⟩
      | some _ =>
        cases e3 : p.Time with
        | none => exact ⟨"Time", rfl, Or.inr (Or.inr (Or.inl ⟨rfl, rfl⟩))⟩
        | some _ =>
          cases e4 : p.Nil with
          | none => exact ⟨"Nil", rfl, Or.inr (Or.inr (Or.inr ⟨rfl, rfl⟩))⟩
          | some _ => simp [e1, e2, e3, e4] at h
  · intro a h
    unfold Aux.encode
    rw [h]
    rfl

/-- C6 at a concrete payload: Name, Tags and Nil on the wire, no Time. -/
theorem missing_required_rejected_witness :
    Point.decodeFields payloadNoTime
      = .ok { Name := some [], Tags := some [], Nil := some false }
    ∧ Point.decode payloadNoTime = .error (.MissingRequiredField "Time")
    ∧ ∃ fs, wireFields payloadNoTime = some fs
        ∧ (absentRequired Point.fields fs = [] →
            Point.decode payloadNoTime
              = .ok { Name := some [], Tags := some [], Nil := some false })
        ∧ (∀ n rest, absentRequired Point.fields fs = n :: rest →
            Point.decode payloadNoTime = .error (.MissingRequiredField n))
        ∧ ((∀ f ∈ fs, f.tag ≠ 3) → (∃ f ∈ fs, f.tag = 1) → (∃ f ∈ fs, f.tag = 2) →
            Point.decode payloadNoTime = .error (.MissingRequiredField "Time")) :=
  ⟨rfl, rfl, missing_required_rejected.1 payloadNoTime _ rfl⟩

/-! ## Round trip: values and single fields -/

theorem Int64_toWire_lt (x : Int64) : x.toWire < 18446744073709551616 := by
  unfold Int64.toWire
  omega

theorem Int64_ofWire_toWire (x : Int64) : Int64.ofWire x.toWire = x := by
  obtain ⟨v, hlo, hhi⟩ := x
  have hw : ((v % 18446744073709551616).toNat : Int) = v % 18446744073709551616 :=
    Int.toNat_of_nonneg (Int.emod_nonneg _ (by decide))
  unfold Int64.ofWire Int64.toWire
  simp only
  generalize (v % 18446744073709551616).toNat = w at hw
  split
  · apply Subtype.ext
    simp only
    omega
  · apply Subtype.ext
    simp only
    omega

theorem Int32_toWire_lt (x : Int32) : x.toWire < 18446744073709551616 := by
  unfold Int32.toWire
  omega

theorem Int32_ofWire_toWire (x : Int32) : Int32.ofWire x.toWire = x := by
  obtain ⟨v, hlo, hhi⟩ := x
  have hw : ((v % 18446744073709551616).toNat : Int) = v % 18446744073709551616 :=
    Int.toNat_of_nonneg (Int.emod_nonneg _ (by decide))
  unfold Int32.ofWire Int32.toWire
  simp only
  generalize (v % 18446744073709551616).toNat = w at hw
  split
  · apply Subtype.ext
    simp only
    omega
  · apply Subtype.ext
    simp only
    omega

theorem Uint32_ofWire_val (x : Uint32) : Uint32.ofWire x.val = x := by
  obtain ⟨v, hv⟩ := x
  apply Subtype.ext
  simp only [Uint32.ofWire]
  omega

theorem Float64_ofWire_val (x : Float64) : Float64.ofWire x.val = x := by
  obtain ⟨v, hv⟩ := x
  apply Subtype.ext
  simp only [Float64.ofWire]
  omega

theorem boolOfWire_boolToWire (b : Bool) : boolOfWire (boolToWire b) = b := by
  cases b <;> rfl

theorem boolToWire_lt (b : Bool) : boolToWire b < 18446744073709551616 := by
  cases b <;> decide

theorem take_length_append_sub {α : Type} (x rest : List α) :
    (x ++ rest).take ((x ++ rest).length - rest.length) = x := by
  simp

theorem readField_of_readBody (x rest : List Byte) (t : Nat) (pl : Payload)
    (h : readBody (x ++ rest) = some (t, pl, rest)) :
    readField (x ++ rest) = some (⟨t, pl, x⟩, rest) := by
  unfold readField
  rw [h]
  simp only [take_length_append_sub]

theorem readField_varintField (d : FieldDesc) (hw : d.wire = .varint)
    (ht : d.tag < 2305843009213693952) (v : Nat) (hv : v < 18446744073709551616)
    (rest : List Byte) :
    readField (putVarintField d v ++ rest) = some (varintFieldOf d v, rest) := by
  apply readField_of_readBody
  unfold readBody putVarintField key
  rw [List.append_assoc, getVarint_putVarint_of_lt _ _ (by rw [hw]; simp only [WireKind.wireType]; omega)]
  simp only [hw, WireKind.wireType]
  rw [if_pos (by omega), getVarint_putVarint_of_lt _ _ hv]
  simp only [Option.some.injEq, Prod.mk.injEq, and_true]
  omega

theorem readField_fixed64Field (d : FieldDesc) (hw : d.wire = .fixed64)
    (ht : d.tag < 2305843009213693952) (v : Nat) (hv : v < 18446744073709551616)
    (rest : List Byte) :
    readField (putFixed64Field d v ++ rest) = some (fixed64FieldOf d v, rest) := by
  apply readField_of_readBody
  unfold readBody putFixed64Field key
  rw [List.append_assoc, getVarint_putVarint_of_lt _ _ (by rw [hw]; simp only [WireKind.wireType]; omega)]
  simp only [hw, WireKind.wireType]
  rw [if_neg (by omega), if_pos (by omega), getFixed64_putFixed64 _ _ hv]
  simp only [Option.some.injEq, Prod.mk.injEq, and_true]
  omega

theorem readField_bytesField (d : FieldDesc) (hw : d.wire = .bytes)
    (ht : d.tag < 2305843009213693952) (b : List Byte) (hb : b.length < 18446744073709551616)
    (rest : List Byte) :
    readField (putBytesField d b ++ rest) = some (bytesFieldOf d b, rest) := by
  apply readField_of_readBody
  unfold readBody putBytesField key
  rw [List.append_assoc, List.append_assoc,
    getVarint_putVarint_of_lt _ _ (by rw [hw]; simp only [WireKind.wireType]; omega)]
  simp only [hw, WireKind.wireType]
  rw [if_neg (by omega), if_neg (by omega), if_pos (by omega), getVarint_putVarint_of_lt _ _ hb]
  simp only [List.length_append, Nat.le_add_right, if_true, List.take_left', List.drop_left',
    Option.some.injEq, Prod.mk.injEq, and_true]
  omega

/-! ## Round trip: records -/

theorem wireFields_append_field (x rest : List Byte) (f : Field) (fs : List Field)
    (h : readField (x ++ rest) = some (f, rest)) (hr : wireFields rest = some fs) :
    wireFields (x ++ rest) = some (f :: fs) := by
  rw [wireFields_step _ _ _ h, hr]
  rfl

theorem wireFields_optField {α : Type} (x : Ptr α) (enc : α → List Byte) (mk : α → Field)
    (rest : List Byte) (fs : List Field)
    (h : ∀ v, x = some v → readField (enc v ++ rest) = some (mk v, rest))
    (hr : wireFields rest = some fs) :
    wireFields (optField x enc ++ rest) = some (optFields x mk ++ fs) := by
  cases x with
  | none => simpa [optField, optFields] using hr
  | some v => exact wireFields_append_field _ _ _ _ (h v rfl) hr

theorem unknownOnly_fields (table : List FieldDesc) (bs : List Byte)
    (h : unknownOnly table bs = true) :
    ∃ ufs, wireFields bs = some ufs ∧ (∀ f ∈ ufs, f.tag ∉ declaredTags table)
      ∧ (ufs.map (fun f => f.raw)).flatten = bs := by
  unfold unknownOnly at h
  cases hw : wireFields bs with
  | none => simp [hw] at h
  | some ufs =>
    simp only [hw, List.all_eq_true, decide_eq_true_eq] at h
    exact ⟨ufs, rfl, h, wireFields_raw bs ufs hw⟩

theorem Aux_apply_unknown (a : Aux) (f : Field) (h : f.tag ∉ declaredTags Aux.fields) :
    Aux.apply a f = .ok { a with XXX_unrecognized := a.XXX_unrecognized ++ f.raw } := by
  have hne : ∀ n, n ∈ declaredTags Aux.fields → f.tag ≠ n := by
    intro n hn hf
    exact h (hf ▸ hn)
  unfold Aux.apply
  rw [if_neg (hne _ (by decide)), if_neg (hne _ (by decide)), if_neg (hne _ (by decide)),
    if_neg (hne _ (by decide)), if_neg (hne _ (by decide))]

theorem Aux_applyAll_unknown (ufs : List Field)
    (h : ∀ f ∈ ufs, f.tag ∉ declaredTags Aux.fields) :
    ∀ a : Aux, applyAll Aux.apply a ufs
      = .ok { a with XXX_unrecognized
                := a.XXX_unrecognized ++ (ufs.map (fun f => f.raw)).flatten } := by
  induction ufs with
  | nil => intro a; simp [applyAll]
  | cons f fs ih =>
    intro a
    simp only [applyAll, Aux_apply_unknown a f (h f (List.mem_cons_self _ _))]
    rw [ih (fun g hg => h g (List.mem_cons_of_mem _ hg))]
    simp [List.append_assoc]

theorem applyAll_optFields {M α : Type} (apply : M → Field → Except CodecError M)
    (x : Ptr α) (mk : α → Field) (set : α → M) (acc : M)
    (h : ∀ v, x = some v → apply acc (mk v) = .ok (set v)) :
    applyAll apply acc (optFields x mk)
      = .ok (match x with
             | none => acc
             | some v => set v) := by
  cases x with
  | none => rfl
  | some v => simp [optFields, applyAll, h v rfl]

theorem Aux_wireFields_encode (a : Aux) (dt : Int32) (hd : a.DataType = some dt)
    (hs : ∀ s, a.StringValue = some s → s.length < 18446744073709551616)
    (ufs : List Field) (hu : wireFields a.XXX_unrecognized = some ufs) :
    ∃ bs, Aux.encode a = .ok bs
      ∧ wireFields bs = some (varintFieldOf Aux.fDataType dt.toWire
          :: (optFields a.FloatValue (fun v => fixed64FieldOf Aux.fFloatValue v.val)
          ++ (optFields a.IntegerValue (fun v => varintFieldOf Aux.fIntegerValue v.toWire)
          ++ (optFields a.StringValue (fun v => bytesFieldOf Aux.fStringValue v)
          ++ (optFields a.BooleanValue
                (fun v => varintFieldOf Aux.fBooleanValue (boolToWire v))
          ++ ufs))))) := by
  unfold Aux.encode
  rw [hd]
  refine ⟨_, rfl, ?_⟩
  refine wireFields_append_field _ _ _ _
    (readField_varintField _ rfl (by decide) _ (Int32_toWire_lt dt) _) ?_
  refine wireFields_optField _ _ _ _ _
    (fun v _ => readField_fixed64Field _ rfl (by decide) _ v.property _) ?_
  refine wireFields_optField _ _ _ _ _
    (fun v _ => readField_varintField _ rfl (by decide) _ (Int64_toWire_lt v) _) ?_
  refine wireFields_optField _ _ _ _ _
    (fun v hv => readField_bytesField _ rfl (by decide) _ (hs v hv) _) ?_
  exact wireFields_optField _ _ _ _ _
    (fun v _ => readField_varintField _ rfl (by decide) _ (boolToWire_lt v) _) hu

theorem Aux_applyAll_FloatValue (acc : Aux) (x : Ptr Float64) (h : acc.FloatValue = none) :
    applyAll Aux.apply acc (optFields x (fun v => fixed64FieldOf Aux.fFloatValue v.val))
      = .ok { acc with FloatValue := x } := by
  cases x with
  | none =>
    cases acc
    simp only at h
    subst h
    rfl
  | some v =>
    show Except.ok _ = Except.ok _
    rw [Float64_ofWire_val]

theorem Aux_applyAll_IntegerValue (acc : Aux) (x : Ptr Int64) (h : acc.IntegerValue = none) :
    applyAll Aux.apply acc (optFields x (fun v => varintFieldOf Aux.fIntegerValue v.toWire))
      = .ok { acc with IntegerValue := x } := by
  cases x with
  | none =>
    cases acc
    simp only at h
    subst h
    rfl
  | some v =>
    show Except.ok _ = Except.ok _
    rw [Int64_ofWire_toWire]

theorem Aux_applyAll_StringValue (acc : Aux) (x : Ptr GoString) (h : acc.StringValue = none) :
    applyAll Aux.apply acc (optFields x (fun v => bytesFieldOf Aux.fStringValue v))
      = .ok { acc with StringValue := x } := by
  cases x with
  | none =>
    cases acc
    simp only at h
    subst h
    rfl
  | some v => rfl

theorem Aux_applyAll_BooleanValue (acc : Aux) (x : Ptr Bool) (h : acc.BooleanValue = none) :
    applyAll Aux.apply acc
        (optFields x (fun v => varintFieldOf Aux.fBooleanValue (boolToWire v)))
      = .ok { acc with BooleanValue := x } := by
  cases x with
  | none =>
    cases acc
    simp only at h
    subst h
    rfl
  | some v =>
    show Except.ok _ = Except.ok _
    rw [boolOfWire_boolToWire]

theorem Aux_round_trip (a : Aux) (h : a.WellFormed) :
    ∃ bs, Aux.encode a = .ok bs ∧ Aux.decode bs = .ok a := by
  obtain ⟨hd, hs0, hu⟩ := h
  have hs : ∀ s, a.StringValue = some s → s.length < 18446744073709551616 := by
    intro s hs
    rw [hs] at hs0
    exact hs0
  obtain ⟨ufs, hufs, hall, hraw⟩ := unknownOnly_fields _ _ hu
  obtain ⟨dt, fv, iv, sv, bv, unk⟩ := a
  cases dt with
  | none => simp at hd
  | some dt =>
    obtain ⟨bs, henc, hwire⟩ := Aux_wireFields_encode _ dt rfl hs ufs hufs
    refine ⟨bs, henc, ?_⟩
    unfold Aux.decode Aux.decodeFields
    rw [decodeAll_of_wireFields Aux.apply bs {} _ hwire]
    simp only [applyAll]
    have e1 : Aux.apply {} (varintFieldOf Aux.fDataType dt.toWire)
        = .ok { DataType := some dt } := by
      show Except.ok _ = Except.ok _
      rw [Int32_ofWire_toWire]
    rw [e1]
    simp only
    rw [applyAll_append, Aux_applyAll_FloatValue _ _ rfl]
    simp only
    rw [applyAll_append, Aux_applyAll_IntegerValue _ _ rfl]
    simp only
    rw [applyAll_append, Aux_applyAll_StringValue _ _ rfl]
    simp only
    rw [applyAll_append, Aux_applyAll_BooleanValue _ _ rfl]
    simp only
    rw [Aux_applyAll_unknown ufs hall]
    simp only [hraw, List.nil_append]
    rfl

theorem Point_apply_unknown (p : Point) (f : Field) (h : f.tag ∉ declaredTags Point.fields) :
    Point.apply p f = .ok { p with XXX_unrecognized := p.XXX_unrecognized ++ f.raw } := by
  have hne : ∀ n, n ∈ declaredTags Point.fields → f.tag ≠ n := by
    intro n hn hf
    exact h (hf ▸ hn)
  unfold Point.apply
  rw [if_neg (hne _ (by decide)), if_neg (hne _ (by decide)), if_neg (hne _ (by decide)),
    if_neg (hne _ (by decide)), if_neg (hne _ (by decide)), if_neg (hne _ (by decide)),
    if_neg (hne _ (by decide)), if_neg (hne _ (by decide)), if_neg (hne _ (by decide)),
    if_neg (hne _ (by decide))]

theorem Point_applyAll_unknown (ufs : List Field)
    (h : ∀ f ∈ ufs, f.tag ∉ declaredTags Point.fields) :
    ∀ p : Point, applyAll Point.apply p ufs
      = .ok { p with XXX_unrecognized
                := p.XXX_unrecognized ++ (ufs.map (fun f => f.raw)).flatten } := by
  induction ufs with
  | nil => intro p; simp [applyAll]
  | cons f fs ih =>
    intro p
    simp only [applyAll, Point_apply_unknown p f (h f (List.mem_cons_self _ _))]
    rw [ih (fun g hg => h g (List.mem_cons_of_mem _ hg))]
    simp [List.append_assoc]

theorem Point_applyAll_Aggregated (acc : Point) (x : Ptr Uint32) (h : acc.Aggregated = none) :
    applyAll Point.apply acc (optFields x (fun v => varintFieldOf Point.fAggregated v.val))
      = .ok { acc with Aggregated := x } := by
  cases x with
  | none =>
    cases acc
    simp only at h
    subst h
    rfl
  | some v =>
    show Except.ok _ = Except.ok _
    rw [Uint32_ofWire_val]

theorem Point_applyAll_FloatValue (acc : Point) (x : Ptr Float64) (h : acc.FloatValue = none) :
    applyAll Point.apply acc (optFields x (fun v => fixed64FieldOf Point.fFloatValue v.val))
      = .ok { acc with FloatValue := x } := by
  cases x with
  | none =>
    cases acc
    simp only at h
    subst h
    rfl
  | some v =>
    show Except.ok _ = Except.ok _
    rw [Float64_ofWire_val]

theorem Point_applyAll_IntegerValue (acc : Point) (x : Ptr Int64)
    (h : acc.IntegerValue = none) :
    applyAll Point.apply acc
        (optFields x (fun v => varintFieldOf Point.fIntegerValue v.toWire))
      = .ok { acc with IntegerValue := x } := by
  cases x with
  | none =>
    cases acc
    simp only at h
    subst h
    rfl
  | some v =>
    show Except.ok _ = Except.ok _
    rw [Int64_ofWire_toWire]

theorem Point_applyAll_StringValue (acc : Point) (x : Ptr GoString)
    (h : acc.StringValue = none) :
    applyAll Point.apply acc (optFields x (fun v => bytesFieldOf Point.fStringValue v))
      = .ok { acc with StringValue := x } := by
  cases x with
  | none =>
    cases acc
    simp only at h
    subst h
    rfl
  | some v => rfl

theorem Point_applyAll_BooleanValue (acc : Point) (x : Ptr Bool)
    (h : acc.BooleanValue = none) :
    applyAll Point.apply acc
        (optFields x (fun v => varintFieldOf Point.fBooleanValue (boolToWire v)))
      = .ok { acc with BooleanValue := x } := by
  cases x with
  | none =>
    cases acc
    simp only at h
    subst h
    rfl
  | some v =>
    show Except.ok _ = Except.ok _
    rw [boolOfWire_boolToWire]

theorem auxBody_of_encode (a : Aux) (bs : List Byte) (h : Aux.encode a = .ok bs) :
    auxBody (some a) = bs := by
  simp [auxBody, h]

theorem wireFields_auxList (l : List (Ptr Aux))
    (hl : ∀ x ∈ l, ∃ a : Aux, x = some a ∧ a.WellFormed
      ∧ (auxBody x).length < 18446744073709551616)
    (rest : List Byte) (fs : List Field) (hr : wireFields rest = some fs) :
    ∃ bs, encodeAuxList l = .ok bs
      ∧ wireFields (bs ++ rest)
        = some (l.map (fun x => bytesFieldOf Point.fAux (auxBody x)) ++ fs) := by
  induction l with
  | nil => exact ⟨[], rfl, by simpa using hr⟩
  | cons x xs ih =>
    obtain ⟨a, rfl, hwf, hlen⟩ := hl x (List.mem_cons_self _ _)
    obtain ⟨tl, htl, hwtl⟩ := ih (fun y hy => hl y (List.mem_cons_of_mem _ hy))
    obtain ⟨body, hbody, _⟩ := Aux_round_trip a hwf
    have hb : auxBody (some a) = body := auxBody_of_encode a body hbody
    refine ⟨putBytesField Point.fAux body ++ tl, ?_, ?_⟩
    · simp [encodeAuxList, encodeAuxElem, hbody, htl]
    · rw [List.append_assoc, List.map_cons, List.cons_append, hb]
      rw [hb] at hlen
      exact wireFields_append_field _ _ _ _
        (readField_bytesField _ rfl (by decide) _ hlen _) hwtl

theorem Point_apply_auxField (acc : Point) (a : Internal.Aux) (h : a.WellFormed) :
    Point.apply acc (bytesFieldOf Point.fAux (auxBody (some a)))
      = .ok { acc with Aux := acc.Aux ++ [some a] } := by
  obtain ⟨body, hbody, hdec⟩ := Aux_round_trip a h
  rw [auxBody_of_encode a body hbody]
  show (match Internal.Aux.decode body with
        | Except.error e => (Except.error e : Except CodecError Point)
        | Except.ok b => Except.ok { acc with Aux := acc.Aux ++ [some b] }) = _
  rw [hdec]

theorem Point_applyAll_auxList (l : List (Ptr Internal.Aux))
    (hl : ∀ x ∈ l, ∃ a : Internal.Aux, x = some a ∧ a.WellFormed
      ∧ (auxBody x).length < 18446744073709551616) :
    ∀ acc : Point,
      applyAll Point.apply acc (l.map (fun x => bytesFieldOf Point.fAux (auxBody x)))
        = .ok { acc with Aux := acc.Aux ++ l } := by
  induction l with
  | nil => intro acc; simp [applyAll]
  | cons x xs ih =>
    intro acc
    obtain ⟨a, rfl, hwf, _⟩ := hl x (List.mem_cons_self _ _)
    simp only [List.map_cons, applyAll, Point_apply_auxField acc a hwf]
    rw [ih (fun y hy => hl y (List.mem_cons_of_mem _ hy))]
    simp [List.append_assoc]

theorem Point_wireFields_encode (p : Point) (name tags : GoString) (time : Int64)
    (nil : Bool) (h1 : p.Name = some name) (h2 : p.Tags = some tags)
    (h3 : p.Time = some time) (h4 : p.Nil = some nil)
    (l1 : name.length < 18446744073709551616) (l2 : tags.length < 18446744073709551616)
    (hs : ∀ s, p.StringValue = some s → s.length < 18446744073709551616)
    (hl : ∀ x ∈ p.Aux, ∃ a : Internal.Aux, x = some a ∧ a.WellFormed
      ∧ (auxBody x).length < 18446744073709551616)
    (ufs : List Field) (hu : wireFields p.XXX_unrecognized = some ufs) :
    ∃ bs, Point.encode p = .ok bs
      ∧ wireFields bs = some (bytesFieldOf Point.fName name
          :: bytesFieldOf Point.fTags tags
          :: varintFieldOf Point.fTime time.toWire
          :: varintFieldOf Point.fNil (boolToWire nil)
          :: (p.Aux.map (fun x => bytesFieldOf Point.fAux (auxBody x))
          ++ (optFields p.Aggregated (fun v => varintFieldOf Point.fAggregated v.val)
          ++ (optFields p.FloatValue (fun v => fixed64FieldOf Point.fFloatValue v.val)
          ++ (optFields p.IntegerValue
                (fun v => varintFieldOf Point.fIntegerValue v.toWire)
          ++ (optFields p.StringValue (fun v => bytesFieldOf Point.fStringValue v)
          ++ (optFields p.BooleanValue
                (fun v => varintFieldOf Point.fBooleanValue (boolToWire v))
          ++ ufs))))))) := by
  have w5 := wireFields_optField p.BooleanValue
    (fun v => putVarintField Point.fBooleanValue (boolToWire v))
    (fun v => varintFieldOf Point.fBooleanValue (boolToWire v)) _ _
    (fun v _ => readField_varintField _ rfl (by decide) _ (boolToWire_lt v) _) hu
  have w4 := wireFields_optField p.StringValue
    (fun v => putBytesField Point.fStringValue v)
    (fun v => bytesFieldOf Point.fStringValue v) _ _
    (fun v hv => readField_bytesField _ rfl (by decide) _ (hs v hv) _) w5
  have w3 := wireFields_optField p.IntegerValue
    (fun v => putVarintField Point.fIntegerValue v.toWire)
    (fun v => varintFieldOf Point.fIntegerValue v.toWire) _ _
    (fun v _ => readField_varintField _ rfl (by decide) _ (Int64_toWire_lt v) _) w4
  have w2 := wireFields_optField p.FloatValue
    (fun v => putFixed64Field Point.fFloatValue v.val)
    (fun v => fixed64FieldOf Point.fFloatValue v.val) _ _
    (fun v _ => readField_fixed64Field _ rfl (by decide) _ v.property _) w3
  have w1 := wireFields_optField p.Aggregated
    (fun v => putVarintField Point.fAggregated v.val)
    (fun v => varintFieldOf Point.fAggregated v.val) _ _
    (fun v _ => readField_varintField _ rfl (by decide) _
      (lt_trans v.property (by decide)) _) w2
  obtain ⟨aux, haux, waux⟩ := wireFields_auxList p.Aux hl _ _ w1
  unfold Point.encode
  rw [h1, h2, h3, h4]
  simp only [haux]
  refine ⟨_, rfl, ?_⟩
  refine wireFields_append_field _ _ _ _
    (readField_bytesField _ rfl (by decide) _ l1 _) ?_
  refine wireFields_append_field _ _ _ _
    (readField_bytesField _ rfl (by decide) _ l2 _) ?_
  refine wireFields_append_field _ _ _ _
    (readField_varintField _ rfl (by decide) _ (Int64_toWire_lt time) _) ?_
  exact wireFields_append_field _ _ _ _
    (readField_varintField _ rfl (by decide) _ (boolToWire_lt nil) _) waux

theorem Point_round_trip (p : Point) (h : p.WellFormed) :
    ∃ bs, Point.encode p = .ok bs ∧ Point.decode bs = .ok p := by
  obtain ⟨h1, h2, h3, h4, l1, l2, hs0, hl0, hu⟩ := h
  have hs : ∀ s, p.StringValue = some s → s.length < 18446744073709551616 := by
    intro s hs
    rw [hs] at hs0
    exact hs0
  have hl : ∀ x ∈ p.Aux, ∃ a : Aux, x = some a ∧ a.WellFormed
      ∧ (auxBody x).length < 18446744073709551616 := by
    intro x hx
    obtain ⟨i1, i2, i3⟩ := hl0 x hx
    cases x with
    | none => simp at i1
    | some a => exact ⟨a, rfl, i2, i3⟩
  obtain ⟨ufs, hufs, hall, hraw⟩ := unknownOnly_fields _ _ hu
  obtain ⟨name, tags, time, nil, aux, agg, fv, iv, sv, bv, unk⟩ := p
  cases name with
  | none => simp at h1
  | some name =>
  cases tags with
  | none => simp at h2
  | some tags =>
  cases time with
  | none => simp at h3
  | some time =>
  cases nil with
  | none => simp at h4
  | some nil =>
    obtain ⟨bs, henc, hwire⟩ := Point_wireFields_encode _ name tags time nil rfl rfl rfl rfl
      l1 l2 hs hl ufs hufs
    refine ⟨bs, henc, ?_⟩
    unfold Point.decode Point.decodeFields
    rw [decodeAll_of_wireFields Point.apply bs {} _ hwire]
    simp only [applyAll]
    have e1 : Point.apply {} (bytesFieldOf Point.fName name) = .ok { Name := some name } :=
      rfl
    rw [e1]
    simp only
    have e2 : Point.apply { Name := some name } (bytesFieldOf Point.fTags tags)
        = .ok { Name := some name, Tags := some tags } := rfl
    rw [e2]
    simp only
    have e3 : Point.apply { Name := some name, Tags := some tags }
        (varintFieldOf Point.fTime time.toWire)
        = .ok { Name := some name, Tags := some tags, Time := some time } := by
      show Except.ok _ = Except.ok _
      rw [Int64_ofWire_toWire]
    rw [e3]
    simp only
    have e4 : Point.apply { Name := some name, Tags := some tags, Time := some time }
        (varintFieldOf Point.fNil (boolToWire nil))
        = .ok { Name := some name, Tags := some tags, Time := some time,
                Nil := some nil } := by
      show Except.ok _ = Except.ok _
      rw [boolOfWire_boolToWire]
    rw [e4]
    simp only
    rw [applyAll_append, Point_applyAll_auxList _ hl]
    simp only
    rw [applyAll_append, Point_applyAll_Aggregated _ _ rfl]
    simp only
    rw [applyAll_append, Point_applyAll_FloatValue _ _ rfl]
    simp only
    rw [applyAll_append, Point_applyAll_IntegerValue _ _ rfl]
    simp only
    rw [applyAll_append, Point_applyAll_StringValue _ _ rfl]
    simp only
    rw [applyAll_append, Point_applyAll_BooleanValue _ _ rfl]
    simp only
    rw [Point_applyAll_unknown ufs hall]
    simp only [hraw, List.nil_append]
    rfl

/-! ## Round trip (C5) -/

/-- C5, as amended.  For every well-formed `Point` (the four required fields set,
    every `Aux` element non-nil with `DataType` set, every unknown-field buffer holding
    only well-formed fields with undeclared tags, strings and encoded elements shorter
    than `2^64` bytes) and for every well-formed `Aux`, encoding succeeds and decoding
    the bytes returns the record itself: every field present or absent as before, the
    `Aux` elements in number and order, the unknown-field buffers unchanged. -/
theorem round_trip_well_formed :
    (∀ p : Point, p.WellFormed → ∃ bs, Point.encode p = .ok bs ∧ Point.decode bs = .ok p)
    ∧ (∀ a : Aux, a.WellFormed → ∃ bs, Aux.encode a = .ok bs ∧ Aux.decode bs = .ok a) :=
  ⟨Point_round_trip, Aux_round_trip⟩

/-- C5 at a concrete record: scenario B, extended with a second `Aux` element and
    unknown fields in the point and in that element, round-trips. -/
theorem round_trip_well_formed_witness :
    scenarioB.WellFormed
    ∧ ∃ bs, Point.encode scenarioB = .ok bs ∧ Point.decode bs = .ok scenarioB :=
  ⟨by decide, round_trip_well_formed.1 scenarioB (by decide)⟩

/-- C5 as stated fails: `strayPoint` has all four required fields set (and no `Aux`
    element), yet its encoding decodes to a different record, one in which the optional
    `Aggregated` is present and the unknown-field buffer is empty. -/
theorem round_trip_counterexample :
    strayPoint.Name.isSome = true ∧ strayPoint.Tags.isSome = true
    ∧ strayPoint.Time.isSome = true ∧ strayPoint.Nil.isSome = true
    ∧ strayPoint.Aux = []
    ∧ Point.encode strayPoint = .ok [10, 0, 18, 0, 24, 0, 32, 0, 48, 5]
    ∧ Point.decode [10, 0, 18, 0, 24, 0, 32, 0, 48, 5] = .ok strayDecoded
    ∧ strayDecoded ≠ strayPoint
    ∧ strayPoint.Aggregated = none
    ∧ strayDecoded.Aggregated = some ⟨5, by decide⟩ :=
  ⟨rfl, rfl, rfl, rfl, rfl, rfl, rfl, by decide, rfl, rfl⟩

end Internal
